import Mathlib

/-!
# Native-messaging host manifest registration

A shallow embedding of `manifest_darwin.go` and `manifest_windows.go`
(package `host`): the target locator `getTargetNames`, `Install` and
`Uninstall` of both platforms.

The Go functions talk to the operating system only through a fixed set of
primitives (`os.Getuid`, `os.UserHomeDir`, `filepath.Glob`, `osMkdirAll`,
`ioutilWriteFile`, `os.Remove`, the `registry` package, `log` and
`runtimeGoexit`).  The embedding threads an explicit `World` through the
code, next to a read-only `Env`: every primitive appends the call it received, with its outcome, to
`World.trace`; the outcome of a fallible call is read from the script
`World.faults`, so that a theorem quantified over all worlds covers every
combination of successes and failures.

Go strings are modelled by `String`.  The only byte-level operations in the
source compare with or split at ASCII characters, for which bytes and code
points agree on valid UTF-8.
-/

namespace NativeMessagingHost

/-! ## Values -/

/-- A non-nil Go `error`; `msg` is what `err.Error()` returns. -/
structure GoError where
  msg : String
  deriving DecidableEq, Repr

/-- A Go `[]byte`. -/
abbrev Bytes := List UInt8

/-- Modelled from the spec: the `Host` struct is declared outside the three
source files.  The source reads the fields `AppName` and `ExecName`; the
remaining browser-facing fields (description, allowed origins) are named in
the data model of the specification and are only consumed by the JSON
serializer. -/
structure Host where
  AppName : String
  ExecName : String
  Description : String
  AllowedOrigins : List String
  deriving DecidableEq, Repr

/-- A `registry.Key` handle: the path under `HKEY_CURRENT_USER` it was opened
on, or `none` for the zero handle a failed open returns. -/
abbrev Key := Option String

/-- The primitive calls the source issues. -/
inductive Call where
  | getuid
  | userHomeDir
  | glob (pattern : String)
  | mkdirAll (path : String) (perm : Nat)
  | writeFile (name : String) (data : Bytes) (perm : Nat)
  | remove (name : String)
  | openKey (path : String) (access : Nat)
  | readSubKeyNames (key : Key) (n : Int)
  | createKey (path : String) (access : Nat)
  | setStringValue (key : Key) (name : String) (value : String)
  | deleteValue (key : Key) (name : String)
  | closeKey (key : Key)
  | goexit
  deriving DecidableEq, Repr

/-- A line handed to the process-wide logger. -/
inductive LogEntry where
  /-- A call `log.Print(err)`. -/
  | print (err : GoError)
  /-- A call `log.Printf(format, args...)`, rendered. -/
  | printf (line : String)
  deriving DecidableEq, Repr

/-- What the read-only primitives answer.  No function of the source changes
any of it, so one `Env` stands for the state of the environment while one
method runs. -/
structure Env where
  /-- The result of `os.Getuid()`. -/
  uid : Int
  /-- The value of `$HOME`, which `os.UserHomeDir()` reports. -/
  home : String
  /-- The result of `filepath.Glob(pattern)`. -/
  glob : String → Except GoError (List String)
  /-- The result of `k.ReadSubKeyNames(0)` for a key handle. -/
  subKeyNames : Key → Except GoError (List String)
  /-- The result of `json.MarshalIndent(h, prefix, indent)`. -/
  jsonMarshalIndent : Host → String → String → Bytes × Option GoError
  /-- The function `filepath.Join` of the Windows path library (two elements);
  `filepath.windows.Join` models it on part of its domain. -/
  winJoin : String → String → String
  /-- The function `filepath.Dir` of the Windows path library;
  `filepath.windows.Dir` models it on part of its domain. -/
  winDir : String → String

/-- The mutable part of the environment together with the history of the run.

* `files` and `regValues` are the file system and the registry;
* `faults` scripts the outcome of the fallible calls still to come, one
  entry per call (`none` is success; an exhausted script is success);
* `trace` and `log` record what the code did;
* `partialWrites` scripts what each failed file write leaves behind. -/
@[ext]
structure World where
  /-- Regular files: path to content. -/
  files : String → Option Bytes
  /-- Registry values under `HKEY_CURRENT_USER`: key path, value name to data. -/
  regValues : String → String → Option String
  /-- Outcomes of the fallible calls to come. -/
  faults : List (Option GoError)
  /-- Calls issued so far, oldest first, each with its outcome. -/
  trace : List (Call × Option GoError)
  /-- Lines logged so far, oldest first. -/
  log : List LogEntry
  /-- What the failed file writes to come leave behind, one entry per failed
  `ioutilWriteFile`: `none` when the file could not be opened and is as it
  was, `some n` when it was opened, which truncates it, and `n` bytes of the
  data were written before the error (an exhausted script: as it was). -/
  partialWrites : List (Option Nat)

/-- The calls of a trace, without their outcomes. -/
def World.calls (w : World) : List Call := w.trace.map Prod.fst

/-- The rendered `log.Printf` lines of the log, in order. -/
def World.printfLines (w : World) : List String :=
  w.log.filterMap fun e => match e with
    | .printf line => some line
    | .print _ => none

/-! ## Primitives -/

/-- Record a call with its outcome. -/
def World.record (w : World) (c : Call) (o : Option GoError) : World :=
  { w with trace := w.trace ++ [(c, o)] }

/-- Replace the content of one file (`none`: the file is absent). -/
def World.setFile (w : World) (name : String) (content : Option Bytes) : World :=
  { w with files := fun p => if p = name then content else w.files p }

/-- Replace one value of the key a handle stands for (`none`: no such value). -/
def World.setValue (w : World) (k : Key) (name : String) (data : Option String) : World :=
  { w with regValues := fun p n => if k = some p ∧ n = name then data else w.regValues p n }

/-- The outcome scripted for the `i`-th fallible call from now on. -/
def World.outcome (w : World) (i : Nat) : Option GoError :=
  w.faults.getD i none

/-- A fallible call: its outcome is the head of the script; `effect` is
applied when it succeeds, and nothing is done here when it fails. -/
def World.fallible (w : World) (c : Call) (effect : World → World) : Option GoError × World :=
  let v := { w with faults := w.faults.tail }
  match w.outcome 0 with
  | none => (none, (effect v).record c none)
  | some err => (some err, v.record c (some err))

/-- The call `os.Getuid()`. -/
def osGetuid (env : Env) (w : World) : Int × World :=
  (env.uid, w.record .getuid none)

/-- The call `os.UserHomeDir()` on a Unix system: the value of `$HOME`, with
an error when it is empty. -/
def osUserHomeDir (env : Env) (w : World) : (String × Option GoError) × World :=
  let err := if env.home = "" then some ⟨"$HOME is not defined"⟩ else none
  ((env.home, err), w.record .userHomeDir err)

/-- The call `filepath.Glob(pattern)`. -/
def filepathGlob (env : Env) (pattern : String) (w : World) :
    Except GoError (List String) × World :=
  match env.glob pattern with
  | .error err => (.error err, w.record (.glob pattern) (some err))
  | .ok ms => (.ok ms, w.record (.glob pattern) none)

/-- The call `osMkdirAll(path, perm)`. -/
def osMkdirAll (path : String) (perm : Nat) (w : World) : Option GoError × World :=
  w.fallible (.mkdirAll path perm) id

/-- What a failed `ioutil.WriteFile(name, data, perm)` leaves behind.  The
function opens the file with `O_WRONLY|O_CREATE|O_TRUNC`, writes and closes:
when the open fails the file is as it was; once it is open the file is
truncated and holds the bytes written before the error, a prefix of `data`
(all of `data` when only the close fails). -/
def World.failedWrite (w : World) (name : String) (data : Bytes) : World :=
  match w.partialWrites with
  | [] => w
  | none :: rest => { w with partialWrites := rest }
  | some n :: rest =>
    { w with
      partialWrites := rest
      files := fun p => if p = name then some (data.take n) else w.files p }

/-- The call `ioutilWriteFile(name, data, perm)`, the package variable bound
to `ioutil.WriteFile`: on success the file holds exactly `data`; on failure
it is left as `World.failedWrite` says. -/
def ioutilWriteFile (name : String) (data : Bytes) (perm : Nat) (w : World) :
    Option GoError × World :=
  match w.fallible (.writeFile name data perm) (fun v => v.setFile name (some data)) with
  | (none, v) => (none, v)
  | (some err, v) => (some err, v.failedWrite name data)

/-- The call `os.Remove(name)`: on success the file is gone. -/
def osRemove (name : String) (w : World) : Option GoError × World :=
  w.fallible (.remove name)
    (fun v => v.setFile name none)

/-- The call `log.Print(err)`. -/
def logPrint (err : GoError) (w : World) : World :=
  { w with log := w.log ++ [.print err] }

/-- The call `log.Printf(format, args...)`, with the rendered line. -/
def logPrintf (line : String) (w : World) : World :=
  { w with log := w.log ++ [.printf line] }

/-- The call `runtimeGoexit()`, the process-terminating step. -/
def runtimeGoexit (w : World) : World :=
  w.record .goexit none

/-- The constant `registry.QUERY_VALUE`. -/
def registry.QUERY_VALUE : Nat := 1
/-- The constant `registry.SET_VALUE`. -/
def registry.SET_VALUE : Nat := 2
/-- The constant `registry.ENUMERATE_SUB_KEYS`. -/
def registry.ENUMERATE_SUB_KEYS : Nat := 8

/-- The call `registry.OpenKey(registry.CURRENT_USER, path, access)`. -/
def registryOpenKey (path : String) (access : Nat) (w : World) :
    (Key × Option GoError) × World :=
  match w.fallible (.openKey path access) id with
  | (none, v) => ((some path, none), v)
  | (some err, v) => ((none, some err), v)

/-- The call `registry.CreateKey(registry.CURRENT_USER, path, access)`; the
flag telling whether the key already existed is discarded by the caller and
left out. -/
def registryCreateKey (path : String) (access : Nat) (w : World) :
    (Key × Option GoError) × World :=
  match w.fallible (.createKey path access) id with
  | (none, v) => ((some path, none), v)
  | (some err, v) => ((none, some err), v)

/-- The call `k.ReadSubKeyNames(n)`. -/
def keyReadSubKeyNames (env : Env) (k : Key) (n : Int) (w : World) :
    Except GoError (List String) × World :=
  match env.subKeyNames k with
  | .error err => (.error err, w.record (.readSubKeyNames k n) (some err))
  | .ok names => (.ok names, w.record (.readSubKeyNames k n) none)

/-- The call `k.SetStringValue(name, value)`. -/
def keySetStringValue (k : Key) (name value : String) (w : World) : Option GoError × World :=
  w.fallible (.setStringValue k name value)
    (fun v => v.setValue k name (some value))

/-- The call `k.DeleteValue(name)`. -/
def keyDeleteValue (k : Key) (name : String) (w : World) : Option GoError × World :=
  w.fallible (.deleteValue k name)
    (fun v => v.setValue k name none)

/-- The call `k.Close()`; every caller discards its result. -/
def keyClose (k : Key) (w : World) : World :=
  w.record (.closeKey k) none

/-- Run the deferred `Close` calls of a function, last deferred first. -/
def runDeferred : List Key → World → World
  | [], w => w
  | k :: ks, w => runDeferred ks (keyClose k w)

/-! ## Library functions on strings and paths

`strings.HasPrefix` and `strings.HasSuffix`, and the functions `Clean`,
`Join` and `Dir` of `path/filepath`, after the algorithm of the Go library:
for Unix paths in full, for Windows paths (namespace `filepath.windows`) on
the paths with a drive letter or without a volume name. -/

/-- The function `strings.HasPrefix(s, prefix)`:
`len(s) >= len(prefix) && s[:len(prefix)] == prefix`. -/
def strings.HasPrefix (s pre : String) : Bool :=
  decide (s.data.length ≥ pre.data.length) && (s.data.take pre.data.length == pre.data)

namespace filepath

/-- Split a Unix path at every `/`. -/
def elements : List Char → List (List Char)
  | [] => [[]]
  | c :: cs =>
    if c = '/' then [] :: elements cs
    else match elements cs with
      | [] => [[c]]
      | e :: es => (c :: e) :: es

/-- One step of the loop of `Clean`: `out` holds the path elements written
so far.  Empty and `.` elements are dropped; `..` removes the last element
written unless there is none or it is itself a `..` (the `dotdot` mark), in
which case it is dropped on a rooted path and kept otherwise; any other
element is appended. -/
def cleanStep (rooted : Bool) (out : List (List Char)) (e : List Char) : List (List Char) :=
  if e = [] then out
  else if e = ['.'] then out
  else if e = ['.', '.'] then
    match out.getLast? with
    | none => if rooted then out else out ++ [e]
    | some l => if l = ['.', '.'] then out ++ [e] else out.dropLast
  else out ++ [e]

/-- The function `filepath.Clean` for Unix paths. -/
def Clean (path : String) : String :=
  if path = "" then "."
  else
    let rooted := path.data.head? = some '/'
    let out := (elements path.data).foldl (cleanStep rooted) []
    let body := String.mk (List.intercalate ['/'] out)
    if rooted then "/" ++ body
    else if out = [] then "."
    else body

/-- The function `filepath.Join` for Unix paths: the elements from the first
non-empty one on, joined by `/` and cleaned; the empty string when there is
none. -/
def Join : List String → String
  | [] => ""
  | e :: es => if e = "" then Join es else Clean (String.intercalate "/" (e :: es))

/-- The function `filepath.Dir` for Unix paths: everything up to the last
`/`, cleaned. -/
def Dir (path : String) : String :=
  Clean (String.mk (path.data.reverse.dropWhile (fun c => c != '/')).reverse)

/-- Split a path at every character that `sep` holds of. -/
def splitBy (sep : Char → Bool) : List Char → List (List Char)
  | [] => [[]]
  | c :: cs =>
    if sep c then [] :: splitBy sep cs
    else match splitBy sep cs with
      | [] => [[c]]
      | e :: es => (c :: e) :: es

/-- The result of the loop of `Clean` on the part of a path after its volume
name, whose elements are separated by the characters `sep` holds of: the
elements `cleanStep` keeps, joined by the separator `c`, behind one `c` on a
rooted path, and `.` when nothing is left of a path that is not rooted. -/
def cleanBody (sep : Char → Bool) (c : Char) (rooted : Bool) (body : List Char) : List Char :=
  let out := (splitBy sep body).foldl (cleanStep rooted) []
  if rooted then c :: List.intercalate [c] out
  else if out = [] then ['.']
  else List.intercalate [c] out

namespace windows

/-- The function `isSlash` of the Windows path library. -/
def isSlash (c : Char) : Bool :=
  c == '\\' || c == '/'

/-- An ASCII letter, as in a drive name. -/
def isLetter (c : Char) : Bool :=
  ('a' ≤ c && c ≤ 'z') || ('A' ≤ c && c ≤ 'Z')

/-- The volume name of a Windows path and the rest of the path, for the two
kinds of path this model covers:

* a drive path, a letter and `:` in front of anything;
* a path without a volume name: one that holds no `:` and no `?` and does not
  start with two separators.

For every other path (UNC and device paths, a `:` that is not behind a drive
letter) the result is `none`: what `volumeNameLen` and `Clean` do with them
is not modelled. -/
def splitVolume (p : List Char) : Option (List Char × List Char) :=
  if (p.drop 1).head? = some ':' then
    if p.head?.map isLetter = some true then some (p.take 2, p.drop 2) else none
  else if ':' ∈ p ∨ '?' ∈ p then none
  else if (p.head?.map isSlash = some true) ∧ ((p.drop 1).head?.map isSlash = some true) then none
  else some ([], p)

/-- The function `filepath.Clean` for Windows paths, on the paths
`splitVolume` covers: the volume name, then the rest with its elements,
separated by `\` or `/`, cleaned and joined by `\`. -/
def Clean (path : String) : Option String :=
  match splitVolume path.data with
  | none => none
  | some (vol, body) =>
    some (String.mk (vol ++
      cleanBody isSlash '\\' (decide (body.head?.map isSlash = some true)) body))

/-- The function `filepath.Join` for Windows paths, for the two elements the
source passes.  An empty element is skipped; after a first element that ends
in a separator the leading separators of the second are dropped; after a
drive name `C:` nothing is put in between; otherwise `\` is put in between;
the result is cleaned.  `none` where `Clean` is, and after a first element
that ends in `:` without being a drive name. -/
def Join (dir file : String) : Option String :=
  if dir = "" then (if file = "" then some "" else Clean file)
  else
    match dir.data.getLast? with
    | none => none
    | some last =>
      if isSlash last then Clean (dir ++ String.mk (file.data.dropWhile isSlash))
      else if last = ':' then (if dir.data.length = 2 then Clean (dir ++ file) else none)
      else Clean (dir ++ "\\" ++ file)

/-- The function `filepath.Dir` for Windows paths: the volume name, then
everything after it up to the last separator, cleaned.  `none` where
`splitVolume` or `Clean` is. -/
def Dir (path : String) : Option String :=
  match splitVolume path.data with
  | none => none
  | some (vol, body) =>
    match Clean (String.mk (body.reverse.dropWhile (fun c => !isSlash c)).reverse) with
    | none => none
    | some dir => some (String.mk vol ++ dir)

end windows

end filepath

/-! ## manifest_darwin.go -/

namespace Darwin

/-- The method `getTargetNames` of `manifest_darwin.go`. -/
def getTargetNames (env : Env) (h : Host) (w : World) :
    Except GoError (List String) × World :=
  let targets : List String := []
  let (uid, w) := osGetuid env w
  if uid != 0 then
    let ((homeDir, _), w) := osUserHomeDir env w
    match filepathGlob env
        (homeDir ++ "/Library/Application Support/Google/Chrome/NativeMessagingHosts") w with
    | (.error err, w) => (.error err, w)
    | (.ok ms, w) =>
      (.ok (ms.foldl (fun targets s => targets ++ [filepath.Join [s, h.AppName ++ ".json"]])
        targets), w)
  else (.ok targets, w)

/-- The loop of `Install` over the target names. -/
def installLoop (manifest : Bytes) : List String → World → Option GoError × World
  | [], w => (none, w)
  | targetName :: rest, w =>
    match osMkdirAll (filepath.Dir targetName) 0o755 w with
    | (some err, w) => (some err, w)
    | (none, w) =>
      match ioutilWriteFile targetName manifest 0o644 w with
      | (some err, w) => (some err, w)
      | (none, w) => installLoop manifest rest (logPrintf ("Installed: " ++ targetName) w)

/-- The method `Install` of `manifest_darwin.go`; `none` is a nil error. -/
def Install (env : Env) (h : Host) (w : World) : Option GoError × World :=
  let (manifest, _) := env.jsonMarshalIndent h "" "  "
  match getTargetNames env h w with
  | (.error err, w) => (some err, w)
  | (.ok targetNames, w) => installLoop manifest targetNames w

/-- One `if err := os.Remove(name); err != nil { log.Print(err) }`. -/
def removeLogged (name : String) (w : World) : World :=
  match osRemove name w with
  | (some err, w) => logPrint err w
  | (none, w) => w

/-- The loop of `Uninstall` over the target names. -/
def uninstallLoop (h : Host) : List String → World → World
  | [], w => w
  | targetName :: rest, w =>
    let w := removeLogged targetName w
    let w := removeLogged h.ExecName w
    let w := removeLogged (h.ExecName ++ ".chk") w
    uninstallLoop h rest (logPrintf ("Uninstalled: " ++ targetName) w)

/-- The method `Uninstall` of `manifest_darwin.go`.  It has no result. -/
def Uninstall (env : Env) (h : Host) (w : World) : World :=
  match getTargetNames env h w with
  | (.error _, w) => w
  | (.ok targetNames, w) => runtimeGoexit (uninstallLoop h targetNames w)

end Darwin

/-! ## manifest_windows.go -/

namespace Windows

/-- The method `getTargetNames` of `manifest_windows.go`.  The error of
`OpenKey` is overwritten by that of `ReadSubKeyNames`; the deferred `Close`
runs on both exits. -/
def getTargetNames (env : Env) (_h : Host) (w : World) :
    Except GoError (List String) × World :=
  let targets : List String := []
  let registryKey := "SOFTWARE\\Google"
  let access := registry.QUERY_VALUE ||| registry.ENUMERATE_SUB_KEYS
  let ((regKey, _), w) := registryOpenKey registryKey access w
  match keyReadSubKeyNames env regKey 0 w with
  | (.error err, w) => (.error err, keyClose regKey w)
  | (.ok keyNames, w) =>
    let targets := keyNames.foldl (fun targets keyName =>
      if strings.HasPrefix keyName "Chrome" then
        targets ++ [registryKey ++ "\\" ++ keyName]
      else targets) targets
    (.ok targets, keyClose regKey w)

/-- The loop of `Install` over the registry names; `defers` collects the
keys whose `Close` is deferred, latest first. -/
def installLoop (env : Env) (h : Host) (manifest : Bytes) :
    List String → List Key → World → Option GoError × List Key × World
  | [], defers, w => (none, defers, w)
  | keyName :: rest, defers, w =>
    let registryName := keyName ++ "\\NativeMessagingHosts\\" ++ h.AppName
    let targetName := env.winJoin (env.winDir h.ExecName) (h.AppName ++ ".json")
    match ioutilWriteFile targetName manifest 0o644 w with
    | (some err, w) => (some err, defers, w)
    | (none, w) =>
      match registryCreateKey registryName registry.SET_VALUE w with
      | ((_, some err), w) =>
        installLoop env h manifest rest defers
          (logPrintf ("Error installing: HKCU\\" ++ registryName ++ ": " ++ err.msg) w)
      | ((key, none), w) =>
        match keySetStringValue key "" targetName w with
        | (some err, w) =>
          installLoop env h manifest rest (key :: defers)
            (logPrintf ("Error installing: HKCU\\" ++ registryName ++ ": " ++ err.msg) w)
        | (none, w) =>
          installLoop env h manifest rest (key :: defers)
            (logPrintf ("Installed: HKCU\\" ++ registryName) w)

/-- The method `Install` of `manifest_windows.go`; `none` is a nil error. -/
def Install (env : Env) (h : Host) (w : World) : Option GoError × World :=
  let (manifest, _) := env.jsonMarshalIndent h "" "  "
  match getTargetNames env h w with
  | (.error err, w) => (some err, w)
  | (.ok registryNames, w) =>
    match installLoop env h manifest registryNames [] w with
    | (r, defers, w) => (r, runDeferred defers w)

/-- One `if err := os.Remove(name); err != nil { log.Print(err) }`. -/
def removeLogged (name : String) (w : World) : World :=
  match osRemove name w with
  | (some err, w) => logPrint err w
  | (none, w) => w

/-- The statement `if err := key.DeleteValue(""); err != nil { log.Print(err) }`. -/
def deleteValueLogged (key : Key) (w : World) : World :=
  match keyDeleteValue key "" w with
  | (some err, w) => logPrint err w
  | (none, w) => w

/-- The loop of `Uninstall` over the registry names; `defers` collects the
keys whose `Close` is deferred, latest first. -/
def uninstallLoop (env : Env) (h : Host) :
    List String → List Key → World → List Key × World
  | [], defers, w => (defers, w)
  | keyName :: rest, defers, w =>
    let registryName := keyName ++ "\\NativeMessagingHosts\\" ++ h.AppName
    let targetName := env.winJoin (env.winDir h.ExecName) (h.AppName ++ ".json")
    match registryOpenKey registryName registry.SET_VALUE w with
    | ((_, some err), w) =>
      uninstallLoop env h rest defers
        (logPrintf ("Error opening " ++ registryName ++ ": " ++ err.msg) w)
    | ((key, none), w) =>
      let w := deleteValueLogged key w
      let w := removeLogged targetName w
      let w := removeLogged h.ExecName w
      let w := removeLogged (h.ExecName ++ ".chk") w
      uninstallLoop env h rest (key :: defers)
        (logPrintf ("Uninstalled: HKCU\\" ++ registryName) w)

/-- The method `Uninstall` of `manifest_windows.go`.  It has no result; the
deferred `Close` calls run once `runtimeGoexit` has been called. -/
def Uninstall (env : Env) (h : Host) (w : World) : World :=
  match getTargetNames env h w with
  | (.error _, w) => w
  | (.ok registryNames, w) =>
    match uninstallLoop env h registryNames [] w with
    | (defers, w) => runDeferred defers (runtimeGoexit w)

end Windows

/-! ## Auxiliary definitions for the statements -/

/-- Calls that change the file system or the registry when they succeed. -/
def Call.mutates : Call → Bool
  | .mkdirAll _ _ => true
  | .writeFile _ _ _ => true
  | .remove _ => true
  | .createKey _ _ => true
  | .setStringValue _ _ _ => true
  | .deleteValue _ _ => true
  | _ => false

/-- Calls that create a directory or write a file. -/
def Call.isWrite : Call → Bool
  | .mkdirAll _ _ => true
  | .writeFile _ _ _ => true
  | _ => false

/-- The events a run appended to the trace: those of `after` that were not
yet in `before`. -/
def World.since (after before : World) : List (Call × Option GoError) :=
  after.trace.drop before.trace.length

namespace Darwin

/-- The pattern `getTargetNames` hands to `filepath.Glob`. -/
def globPattern (env : Env) : String :=
  env.home ++ "/Library/Application Support/Google/Chrome/NativeMessagingHosts"

/-- The world `installLoop` leaves when it went through `ts` without failure. -/
def installed (manifest : Bytes) (ts : List String) (w : World) : World :=
  { w with
    faults := w.faults.drop (2 * ts.length)
    trace := w.trace ++ ts.flatMap fun t =>
      [(Call.mkdirAll (filepath.Dir t) 0o755, none), (Call.writeFile t manifest 0o644, none)]
    log := w.log ++ ts.map fun t => LogEntry.printf ("Installed: " ++ t)
    files := fun p => if p ∈ ts then some manifest else w.files p }

end Darwin

namespace Windows

/-- The handle `registry.OpenKey` returns for `SOFTWARE\Google` in `w`. -/
def openedKey (w : World) : Key :=
  (registryOpenKey "SOFTWARE\\Google"
    (registry.QUERY_VALUE ||| registry.ENUMERATE_SUB_KEYS) w).1.1

/-- The world after the three calls of `getTargetNames`. -/
def located (w : World) (r : Option GoError) : World :=
  { w with
    faults := w.faults.tail
    trace := w.trace ++
      [(Call.openKey "SOFTWARE\\Google" 9, w.outcome 0),
       (Call.readSubKeyNames (openedKey w) 0, r),
       (Call.closeKey (openedKey w), none)] }

/-- The registration key of a target: `<target>\NativeMessagingHosts\<AppName>`. -/
def registryName (h : Host) (keyName : String) : String :=
  keyName ++ "\\NativeMessagingHosts\\" ++ h.AppName

/-- The manifest path `filepath.Join(filepath.Dir(h.ExecName), h.AppName+".json")`. -/
def targetName (env : Env) (h : Host) : String :=
  env.winJoin (env.winDir h.ExecName) (h.AppName ++ ".json")

/-- What one iteration of the loop of `Install` that does not return does for
the target `keyName`: the events `evs` it appends to the trace and the
`line` it logs.  The manifest write succeeds; then either `CreateKey` fails,
or it succeeds and `SetStringValue` is called and fails or succeeds. -/
def InstallRound (env : Env) (h : Host) (manifest : Bytes) (keyName : String)
    (evs : List (Call × Option GoError)) (line : String) : Prop :=
  (∃ e : GoError,
    evs = [(Call.writeFile (targetName env h) manifest 0o644, none),
      (Call.createKey (registryName h keyName) registry.SET_VALUE, some e)] ∧
    line = "Error installing: HKCU\\" ++ registryName h keyName ++ ": " ++ e.msg) ∨
  (∃ e : GoError,
    evs = [(Call.writeFile (targetName env h) manifest 0o644, none),
      (Call.createKey (registryName h keyName) registry.SET_VALUE, none),
      (Call.setStringValue (some (registryName h keyName)) "" (targetName env h), some e)] ∧
    line = "Error installing: HKCU\\" ++ registryName h keyName ++ ": " ++ e.msg) ∨
  (evs = [(Call.writeFile (targetName env h) manifest 0o644, none),
      (Call.createKey (registryName h keyName) registry.SET_VALUE, none),
      (Call.setStringValue (some (registryName h keyName)) "" (targetName env h), none)] ∧
    line = "Installed: HKCU\\" ++ registryName h keyName)

/-- What one iteration of the loop of `Uninstall` does for the target
`keyName`: the events `evs` it appends to the trace and the `line` it logs
with `log.Printf`.  Either `OpenKey` fails and nothing else is called, or it
succeeds and the value deletion and the three removals are called, each with
any outcome. -/
def UninstallRound (env : Env) (h : Host) (keyName : String)
    (evs : List (Call × Option GoError)) (line : String) : Prop :=
  (∃ e : GoError,
    evs = [(Call.openKey (registryName h keyName) registry.SET_VALUE, some e)] ∧
    line = "Error opening " ++ registryName h keyName ++ ": " ++ e.msg) ∨
  (∃ o1 o2 o3 o4 : Option GoError,
    evs = [(Call.openKey (registryName h keyName) registry.SET_VALUE, none),
      (Call.deleteValue (some (registryName h keyName)) "", o1),
      (Call.remove (targetName env h), o2),
      (Call.remove h.ExecName, o3),
      (Call.remove (h.ExecName ++ ".chk"), o4)] ∧
    line = "Uninstalled: HKCU\\" ++ registryName h keyName)

end Windows

namespace filepath

end filepath

/-! ## Sample environments -/

/-- A stand-in for the JSON serializer: name and path on two lines. -/
def sampleMarshal (h : Host) (pre indent : String) : Bytes × Option GoError :=
  ((pre ++ h.AppName ++ "\n" ++ indent ++ h.ExecName).data.map fun c => c.toNat.toUInt8, none)

/-- The descriptor of the scenario of the specification. -/
def hostDemo : Host :=
  { AppName := "demo", ExecName := "/opt/demo/bin", Description := "", AllowedOrigins := [] }

/-- The same descriptor, installed on the registry platform. -/
def hostWin : Host :=
  { AppName := "demo", ExecName := "C:\\demo\\demo.exe", Description := "",
    AllowedOrigins := [] }

/-- A stand-in for the Windows `filepath.Dir`, right on clean absolute paths:
everything before the last backslash. -/
def sampleWinDir (path : String) : String :=
  String.mk (path.data.reverse.dropWhile (fun c => c != '\\')).reverse.dropLast

/-- A stand-in for the Windows `filepath.Join` of a directory and a file
name, right on clean arguments. -/
def sampleWinJoin (dir file : String) : String :=
  dir ++ "\\" ++ file

/-- An ordinary user whose Chrome directory exists; the registry has the
four channel keys of the specification and two near misses. -/
def envUser : Env where
  uid := 501
  home := "/home/u"
  glob := fun p => .ok [p]
  subKeyNames := fun k =>
    if k = none then .error ⟨"The handle is invalid."⟩
    else .ok ["Chrome", "ChromeBeta", "Edge", "Other", "chrome", "GoogleChrome"]
  jsonMarshalIndent := sampleMarshal
  winJoin := sampleWinJoin
  winDir := sampleWinDir

/-- A world in which nothing is installed and nothing has run yet; every
call will succeed. -/
def worldEmpty : World where
  files := fun _ => none
  regValues := fun _ _ => none
  faults := []
  trace := []
  log := []
  partialWrites := []

/-- Root, and a registry without any `Chrome` subkey under `SOFTWARE\Google`. -/
def envNoTargets : Env :=
  { envUser with
    uid := 0
    subKeyNames := fun k =>
      if k = none then .error ⟨"The handle is invalid."⟩ else .ok ["Edge", "Update"] }

/-- A world in which the manifest, the executable and its checksum file are
in place, for `hostDemo` on the directory platform and for `hostWin` on the
registry platform, and the host is registered for the `Chrome` channel. -/
def worldInstalled : World :=
  { worldEmpty with
    files := fun p =>
      if p = "/opt/demo/bin" ∨ p = "/opt/demo/bin.chk" ∨
        p = "/home/u/Library/Application Support/Google/Chrome/NativeMessagingHosts/demo.json" ∨
        p = "C:\\demo\\demo.exe" ∨ p = "C:\\demo\\demo.exe.chk" ∨ p = "C:\\demo\\demo.json"
      then some [1] else none
    regValues := fun k n =>
      if k = "SOFTWARE\\Google\\Chrome\\NativeMessagingHosts\\demo" ∧ n = ""
      then some "C:\\demo\\demo.json" else none }

/-- Opening `SOFTWARE\Google` and the first manifest write succeed, then
`CreateKey` is denied for the `Chrome` channel; every later call succeeds. -/
def worldCreateKeyDenied : World :=
  { worldEmpty with faults := [none, none, some ⟨"Access is denied."⟩] }

/-- Everything is installed, opening `SOFTWARE\Google` succeeds, but opening
the registration key fails for both channels. -/
def worldOpenKeyFails : World :=
  { worldInstalled with
    faults := [none, some ⟨"The system cannot find the file specified."⟩,
      some ⟨"Access is denied."⟩] }

theorem World.outcome_tail (w : World) (i : Nat) :
    ({ w with faults := w.faults.tail } : World).outcome i = w.outcome (i + 1) := by
  unfold World.outcome
  cases w.faults <;> simp

theorem World.fallible_ok (w : World) (c : Call) (eff : World → World)
    (h : w.outcome 0 = none) :
    w.fallible c eff = (none, (eff { w with faults := w.faults.tail }).record c none) := by
  simp [World.fallible, h]

theorem World.fallible_err (w : World) (c : Call) (eff : World → World) (e : GoError)
    (h : w.outcome 0 = some e) :
    w.fallible c eff = (some e, ({ w with faults := w.faults.tail } : World).record c (some e)) := by
  simp [World.fallible, h]

@[simp] theorem World.failedWrite_trace (w : World) (name : String) (data : Bytes) :
    (w.failedWrite name data).trace = w.trace := by
  unfold World.failedWrite
  split <;> rfl

@[simp] theorem World.failedWrite_log (w : World) (name : String) (data : Bytes) :
    (w.failedWrite name data).log = w.log := by
  unfold World.failedWrite
  split <;> rfl

@[simp] theorem World.failedWrite_regValues (w : World) (name : String) (data : Bytes) :
    (w.failedWrite name data).regValues = w.regValues := by
  unfold World.failedWrite
  split <;> rfl

namespace Darwin

theorem installed_nil (manifest : Bytes) (w : World) : installed manifest [] w = w := by
  ext <;> simp [installed]

theorem installed_outcome (manifest : Bytes) (ts : List String) (w : World) (i : Nat) :
    (installed manifest ts w).outcome i = w.outcome (2 * ts.length + i) := by
  simp [installed, World.outcome, List.getD_eq_getElem?_getD]

theorem installLoop_step (manifest : Bytes) (t : String) (rest : List String) (w : World)
    (h0 : w.outcome 0 = none) (h1 : w.outcome 1 = none) :
    installLoop manifest (t :: rest) w = installLoop manifest rest (installed manifest [t] w) := by
  have h1' : ({ w with faults := w.faults.tail } : World).outcome 0 = none := by
    rw [World.outcome_tail]; exact h1
  simp only [installLoop, osMkdirAll, ioutilWriteFile]
  rw [World.fallible_ok _ _ _ h0]
  simp only [id, World.record]
  rw [World.fallible_ok]
  · show installLoop manifest rest _ = _
    refine congrArg _ ?_
    ext <;> simp [installed, logPrintf, World.record, World.setFile, ← List.drop_one]
  · simpa [World.outcome] using h1'

theorem installed_cons (manifest : Bytes) (t : String) (ts : List String) (w : World) :
    installed manifest ts (installed manifest [t] w) = installed manifest (t :: ts) w := by
  ext p
  · simp only [installed, List.mem_cons, List.mem_singleton, List.not_mem_nil, or_false]
    by_cases h1 : p ∈ ts <;> by_cases h2 : p = t <;> simp [h1, h2]
  all_goals simp [installed, Nat.mul_add, Nat.add_comm]

theorem installLoop_append (manifest : Bytes) (pre rest : List String) (w : World)
    (hok : ∀ i < 2 * pre.length, w.outcome i = none) :
    installLoop manifest (pre ++ rest) w = installLoop manifest rest (installed manifest pre w) := by
  induction pre generalizing w with
  | nil => simp [installed_nil]
  | cons t ts ih =>
    have hlen : 2 * (t :: ts).length = 2 * ts.length + 2 := by simp [Nat.mul_add]
    rw [List.cons_append, installLoop_step manifest t (ts ++ rest) w
      (hok 0 (by omega)) (hok 1 (by omega)), ih, installed_cons]
    intro i hi
    rw [installed_outcome]
    exact hok _ (by simp at *; omega)

theorem foldl_append_singleton {α β : Type} (f : α → β) (xs : List α) (acc : List β) :
    xs.foldl (fun targets s => targets ++ [f s]) acc = acc ++ xs.map f := by
  induction xs generalizing acc with
  | nil => simp
  | cons x xs ih => simp [ih]

theorem getTargetNames_root (env : Env) (h : Host) (w : World) (hroot : env.uid = 0) :
    getTargetNames env h w = (.ok [], w.record .getuid none) := by
  simp [getTargetNames, osGetuid, hroot]

theorem getTargetNames_user (env : Env) (h : Host) (w : World) (huser : env.uid ≠ 0) :
    getTargetNames env h w =
      match env.glob (globPattern env) with
      | .error err => (.error err, (osUserHomeDir env (w.record .getuid none)).2.record
          (.glob (globPattern env)) (some err))
      | .ok ms => (.ok (ms.map fun s => filepath.Join [s, h.AppName ++ ".json"]),
          (osUserHomeDir env (w.record .getuid none)).2.record (.glob (globPattern env)) none) := by
  simp only [getTargetNames, osGetuid, bne_iff_ne, ne_eq, huser, not_false_eq_true, if_true,
    osUserHomeDir, filepathGlob, globPattern]
  cases hg : env.glob (env.home ++ "/Library/Application Support/Google/Chrome/NativeMessagingHosts")
    <;> simp [foldl_append_singleton]

theorem getTargetNames_frame (env : Env) (h : Host) (w : World) :
    (getTargetNames env h w).2.faults = w.faults ∧
    (getTargetNames env h w).2.files = w.files ∧
    (getTargetNames env h w).2.regValues = w.regValues ∧
    (getTargetNames env h w).2.log = w.log := by
  by_cases hu : env.uid = 0
  · simp [getTargetNames_root env h w hu, World.record]
  · rw [getTargetNames_user env h w hu]
    cases env.glob (globPattern env) <;> simp [World.record, osUserHomeDir]

end Darwin

theorem Darwin.installLoop_fail_mkdir (manifest : Bytes) (t : String) (rest : List String)
    (w : World) (e : GoError) (h0 : w.outcome 0 = some e) :
    Darwin.installLoop manifest (t :: rest) w =
      (some e, { w with
        faults := w.faults.drop 1
        trace := w.trace ++ [(Call.mkdirAll (filepath.Dir t) 0o755, some e)] }) := by
  simp only [Darwin.installLoop, osMkdirAll]
  rw [World.fallible_err _ _ _ e h0]
  simp [World.record]

theorem Darwin.installLoop_fail_write (manifest : Bytes) (t : String) (rest : List String)
    (w : World) (e : GoError) (h0 : w.outcome 0 = none) (h1 : w.outcome 1 = some e) :
    Darwin.installLoop manifest (t :: rest) w =
      (some e, ({ w with
        faults := w.faults.drop 2
        trace := w.trace ++ [(Call.mkdirAll (filepath.Dir t) 0o755, none),
          (Call.writeFile t manifest 0o644, some e)] } : World).failedWrite t manifest) := by
  have h1' : ({ w with faults := w.faults.tail } : World).outcome 0 = some e := by
    rw [World.outcome_tail]; exact h1
  simp only [Darwin.installLoop, osMkdirAll, ioutilWriteFile]
  rw [World.fallible_ok _ _ _ h0]
  simp only [id, World.record]
  rw [World.fallible_err _ _ _ e (by simpa [World.outcome] using h1')]
  simp [World.record, ← List.drop_one]

theorem Darwin.removeLogged_calls (name : String) (w : World) :
    (Darwin.removeLogged name w).calls = w.calls ++ [Call.remove name] := by
  unfold Darwin.removeLogged osRemove World.fallible
  cases w.outcome 0 <;> simp [World.calls, World.record, logPrint, World.setFile]

theorem Darwin.removeLogged_printfLines (name : String) (w : World) :
    (Darwin.removeLogged name w).printfLines = w.printfLines := by
  unfold Darwin.removeLogged osRemove World.fallible
  cases w.outcome 0 <;> simp [World.printfLines, World.record, logPrint, World.setFile]

theorem Darwin.uninstallLoop_calls (h : Host) (ts : List String) (w : World) :
    (Darwin.uninstallLoop h ts w).calls = w.calls ++ ts.flatMap (fun t =>
      [Call.remove t, Call.remove h.ExecName, Call.remove (h.ExecName ++ ".chk")]) := by
  induction ts generalizing w with
  | nil => simp [Darwin.uninstallLoop]
  | cons t ts ih =>
    simp only [Darwin.uninstallLoop, ih, List.flatMap_cons]
    have hlog : ∀ (l : String) (v : World), (logPrintf l v).calls = v.calls := by
      intro l v; rfl
    rw [hlog, Darwin.removeLogged_calls, Darwin.removeLogged_calls, Darwin.removeLogged_calls]
    simp

theorem Darwin.uninstallLoop_printfLines (h : Host) (ts : List String) (w : World) :
    (Darwin.uninstallLoop h ts w).printfLines =
      w.printfLines ++ ts.map (fun t => "Uninstalled: " ++ t) := by
  induction ts generalizing w with
  | nil => simp [Darwin.uninstallLoop]
  | cons t ts ih =>
    simp only [Darwin.uninstallLoop, ih, List.map_cons]
    have hlog : ∀ (l : String) (v : World),
        (logPrintf l v).printfLines = v.printfLines ++ [l] := by
      intro l v; simp [logPrintf, World.printfLines]
    rw [hlog, Darwin.removeLogged_printfLines, Darwin.removeLogged_printfLines,
      Darwin.removeLogged_printfLines]
    simp

theorem Darwin.getTargetNames_calls (env : Env) (h : Host) (w : World) :
    (Darwin.getTargetNames env h w).2.calls = w.calls ++
      (if env.uid = 0 then [Call.getuid]
       else [Call.getuid, Call.userHomeDir, Call.glob (Darwin.globPattern env)]) := by
  by_cases hu : env.uid = 0
  · simp [Darwin.getTargetNames_root env h w hu, World.record, World.calls, hu]
  · rw [Darwin.getTargetNames_user env h w hu]
    cases env.glob (Darwin.globPattern env) <;>
      simp [World.record, osUserHomeDir, World.calls, hu]

/-! ## Lemmas on the registry platform -/

theorem strings.HasPrefix_iff (s pre : String) :
    strings.HasPrefix s pre = true ↔ ∃ rest : String, s = pre ++ rest := by
  unfold strings.HasPrefix
  constructor
  · intro h
    simp only [ge_iff_le, Bool.and_eq_true, decide_eq_true_eq, beq_iff_eq] at h
    refine ⟨⟨s.data.drop pre.data.length⟩, ?_⟩
    apply String.ext
    have hsplit := List.take_append_drop pre.data.length s.data
    rw [h.2] at hsplit
    rw [String.data_append, hsplit]
  · rintro ⟨rest, rfl⟩
    simp

namespace Windows

theorem foldl_filter (p : String → Bool) (f : String → String) (xs : List String)
    (acc : List String) :
    xs.foldl (fun targets keyName => if p keyName = true then targets ++ [f keyName] else targets)
      acc = acc ++ (xs.filter p).map f := by
  induction xs generalizing acc with
  | nil => simp
  | cons x xs ih =>
    by_cases hp : p x = true <;> simp [ih, hp]

theorem getTargetNames_eq (env : Env) (h : Host) (w : World) :
    getTargetNames env h w =
      match env.subKeyNames (openedKey w) with
      | .error err => (.error err, located w (some err))
      | .ok names =>
        (.ok ((names.filter fun n => strings.HasPrefix n "Chrome").map
          fun n => "SOFTWARE\\Google\\" ++ n), located w none) := by
  have happ : ∀ n : String, "SOFTWARE\\Google" ++ "\\" ++ n = "SOFTWARE\\Google\\" ++ n := by
    intro n
    rw [String.append_assoc]
    rfl
  unfold getTargetNames located openedKey registryOpenKey World.fallible
  cases ho : w.outcome 0 with
  | none =>
    simp only [keyReadSubKeyNames, id]
    cases hs : env.subKeyNames (some "SOFTWARE\\Google") with
    | error err =>
      simp [World.record, keyClose, hs, registry.QUERY_VALUE, registry.ENUMERATE_SUB_KEYS]
    | ok names =>
      simp [World.record, keyClose, hs, registry.QUERY_VALUE, registry.ENUMERATE_SUB_KEYS,
        foldl_filter, happ]
  | some e =>
    simp only [keyReadSubKeyNames]
    cases hs : env.subKeyNames none with
    | error err =>
      simp [World.record, keyClose, hs, registry.QUERY_VALUE, registry.ENUMERATE_SUB_KEYS]
    | ok names =>
      simp [World.record, keyClose, hs, registry.QUERY_VALUE, registry.ENUMERATE_SUB_KEYS,
        foldl_filter, happ]

end Windows

theorem runDeferred_eq (ds : List Key) (w : World) :
    runDeferred ds w = { w with trace := w.trace ++ ds.map fun k => (Call.closeKey k, none) } := by
  induction ds generalizing w with
  | nil => simp [runDeferred]
  | cons k ks ih => simp [runDeferred, ih, keyClose, World.record]

namespace Windows

theorem removeLogged_spec (name : String) (w : World) :
    ∃ o, (removeLogged name w).trace = w.trace ++ [(Call.remove name, o)] ∧
      (removeLogged name w).printfLines = w.printfLines := by
  unfold removeLogged osRemove World.fallible
  cases w.outcome 0 <;>
    simp [World.printfLines, World.record, logPrint, World.setFile]

theorem deleteValueLogged_spec (key : Key) (w : World) :
    ∃ o, (deleteValueLogged key w).trace = w.trace ++ [(Call.deleteValue key "", o)] ∧
      (deleteValueLogged key w).printfLines = w.printfLines := by
  unfold deleteValueLogged keyDeleteValue World.fallible
  cases w.outcome 0 <;>
    simp [World.printfLines, World.record, logPrint, World.setValue]

theorem logPrintf_printfLines (line : String) (w : World) :
    (logPrintf line w).printfLines = w.printfLines ++ [line] := by
  simp [logPrintf, World.printfLines]

theorem uninstallLoop_spec (env : Env) (h : Host) (names : List String) (defers : List Key)
    (w : World) :
    ∃ rounds : List (List (Call × Option GoError) × String),
      List.Forall₂ (fun k r => UninstallRound env h k r.1 r.2) names rounds ∧
      (uninstallLoop env h names defers w).2.trace = w.trace ++ (rounds.map Prod.fst).flatten ∧
      (uninstallLoop env h names defers w).2.printfLines =
        w.printfLines ++ rounds.map Prod.snd := by
  induction names generalizing defers w with
  | nil => exact ⟨[], List.Forall₂.nil, by simp [uninstallLoop], by simp [uninstallLoop]⟩
  | cons k ks ih =>
    cases ho : w.outcome 0 with
    | some e =>
      have hstep : uninstallLoop env h (k :: ks) defers w =
          uninstallLoop env h ks defers
            (logPrintf ("Error opening " ++ registryName h k ++ ": " ++ e.msg)
              (({ w with faults := w.faults.tail } : World).record
                (Call.openKey (registryName h k) registry.SET_VALUE) (some e))) := by
        simp [uninstallLoop, registryOpenKey, World.fallible, ho, registryName]
      obtain ⟨rounds, hr, ht, hl⟩ := ih defers
        (logPrintf ("Error opening " ++ registryName h k ++ ": " ++ e.msg)
          (({ w with faults := w.faults.tail } : World).record
            (Call.openKey (registryName h k) registry.SET_VALUE) (some e)))
      refine ⟨([(Call.openKey (registryName h k) registry.SET_VALUE, some e)],
        "Error opening " ++ registryName h k ++ ": " ++ e.msg) :: rounds,
        List.Forall₂.cons (Or.inl ⟨e, rfl, rfl⟩) hr, ?_, ?_⟩
      · rw [hstep, ht]; simp [logPrintf, World.record]
      · rw [hstep, hl, logPrintf_printfLines]; simp [World.printfLines, World.record]
    | none =>
      let w0 : World := ({ w with faults := w.faults.tail } : World).record
        (Call.openKey (registryName h k) registry.SET_VALUE) none
      let w1 := deleteValueLogged (some (registryName h k)) w0
      let w2 := removeLogged (targetName env h) w1
      let w3 := removeLogged h.ExecName w2
      let w4 := removeLogged (h.ExecName ++ ".chk") w3
      have hstep : uninstallLoop env h (k :: ks) defers w =
          uninstallLoop env h ks (some (registryName h k) :: defers)
            (logPrintf ("Uninstalled: HKCU\\" ++ registryName h k) w4) := by
        simp [uninstallLoop, registryOpenKey, World.fallible, ho, registryName, targetName,
          w4, w3, w2, w1, w0]
      obtain ⟨o1, ht1, hl1⟩ := deleteValueLogged_spec (some (registryName h k)) w0
      obtain ⟨o2, ht2, hl2⟩ := removeLogged_spec (targetName env h) w1
      obtain ⟨o3, ht3, hl3⟩ := removeLogged_spec h.ExecName w2
      obtain ⟨o4, ht4, hl4⟩ := removeLogged_spec (h.ExecName ++ ".chk") w3
      obtain ⟨rounds, hr, ht, hl⟩ := ih (some (registryName h k) :: defers)
        (logPrintf ("Uninstalled: HKCU\\" ++ registryName h k) w4)
      refine ⟨([(Call.openKey (registryName h k) registry.SET_VALUE, none),
          (Call.deleteValue (some (registryName h k)) "", o1),
          (Call.remove (targetName env h), o2),
          (Call.remove h.ExecName, o3),
          (Call.remove (h.ExecName ++ ".chk"), o4)],
        "Uninstalled: HKCU\\" ++ registryName h k) :: rounds,
        List.Forall₂.cons (Or.inr ⟨o1, o2, o3, o4, rfl, rfl⟩) hr, ?_, ?_⟩
      · rw [hstep, ht]
        have : (logPrintf ("Uninstalled: HKCU\\" ++ registryName h k) w4).trace = w4.trace := rfl
        rw [this, ht4, ht3, ht2, ht1]
        simp [w0, World.record]
      · rw [hstep, hl, logPrintf_printfLines, hl4, hl3, hl2, hl1]
        simp [w0, World.printfLines, World.record]

theorem installLoop_writeFail (env : Env) (h : Host) (m : Bytes) (k : String)
    (ks : List String) (defers : List Key) (w : World) (e : GoError)
    (h0 : w.outcome 0 = some e) :
    installLoop env h m (k :: ks) defers w =
      (some e, defers, ({ w with
        faults := w.faults.drop 1
        trace := w.trace ++ [(Call.writeFile (targetName env h) m 0o644, some e)] }
        : World).failedWrite (targetName env h) m) := by
  simp [installLoop, ioutilWriteFile, World.fallible, h0, World.record, targetName]

theorem installLoop_createFail (env : Env) (h : Host) (m : Bytes) (k : String)
    (ks : List String) (defers : List Key) (w : World) (e : GoError)
    (h0 : w.outcome 0 = none) (h1 : w.outcome 1 = some e) :
    installLoop env h m (k :: ks) defers w =
      installLoop env h m ks defers { w with
        files := fun p => if p = targetName env h then some m else w.files p
        faults := w.faults.drop 2
        trace := w.trace ++ [(Call.writeFile (targetName env h) m 0o644, none),
          (Call.createKey (registryName h k) registry.SET_VALUE, some e)]
        log := w.log ++ [LogEntry.printf
          ("Error installing: HKCU\\" ++ registryName h k ++ ": " ++ e.msg)] } := by
  rcases hw : w.faults with _ | ⟨a, _ | ⟨b, rest⟩⟩ <;>
    simp [World.outcome, hw] at h0 h1
  subst h0 h1
  simp [installLoop, ioutilWriteFile, registryCreateKey, World.fallible, World.record,
    targetName, registryName, World.setFile, World.outcome, logPrintf, hw]

theorem installLoop_setFail (env : Env) (h : Host) (m : Bytes) (k : String)
    (ks : List String) (defers : List Key) (w : World) (e : GoError)
    (h0 : w.outcome 0 = none) (h1 : w.outcome 1 = none) (h2 : w.outcome 2 = some e) :
    installLoop env h m (k :: ks) defers w =
      installLoop env h m ks (some (registryName h k) :: defers) { w with
        files := fun p => if p = targetName env h then some m else w.files p
        faults := w.faults.drop 3
        trace := w.trace ++ [(Call.writeFile (targetName env h) m 0o644, none),
          (Call.createKey (registryName h k) registry.SET_VALUE, none),
          (Call.setStringValue (some (registryName h k)) "" (targetName env h), some e)]
        log := w.log ++ [LogEntry.printf
          ("Error installing: HKCU\\" ++ registryName h k ++ ": " ++ e.msg)] } := by
  rcases hw : w.faults with _ | ⟨a, _ | ⟨b, _ | ⟨c, rest⟩⟩⟩ <;>
    simp [World.outcome, hw] at h0 h1 h2
  subst h0 h1 h2
  simp [installLoop, ioutilWriteFile, registryCreateKey, keySetStringValue, World.fallible,
    World.record, targetName, registryName, World.setFile, World.setValue, World.outcome,
    logPrintf, hw]

theorem installLoop_ok (env : Env) (h : Host) (m : Bytes) (k : String)
    (ks : List String) (defers : List Key) (w : World)
    (h0 : w.outcome 0 = none) (h1 : w.outcome 1 = none) (h2 : w.outcome 2 = none) :
    installLoop env h m (k :: ks) defers w =
      installLoop env h m ks (some (registryName h k) :: defers) { w with
        files := fun p => if p = targetName env h then some m else w.files p
        regValues := fun p n =>
          if some (registryName h k) = some p ∧ n = "" then some (targetName env h)
          else w.regValues p n
        faults := w.faults.drop 3
        trace := w.trace ++ [(Call.writeFile (targetName env h) m 0o644, none),
          (Call.createKey (registryName h k) registry.SET_VALUE, none),
          (Call.setStringValue (some (registryName h k)) "" (targetName env h), none)]
        log := w.log ++ [LogEntry.printf ("Installed: HKCU\\" ++ registryName h k)] } := by
  rcases hw : w.faults with _ | ⟨a, _ | ⟨b, _ | ⟨c, rest⟩⟩⟩ <;>
    simp [World.outcome, hw] at h0 h1 h2 <;> subst_vars <;>
    simp [installLoop, ioutilWriteFile, registryCreateKey, keySetStringValue, World.fallible,
      World.record, targetName, registryName, World.setFile, World.setValue, World.outcome,
      logPrintf, hw]

theorem installLoop_combine (env : Env) (h : Host) (m : Bytes) (k : String) (ks : List String)
    (defers defers' : List Key) (w w' : World) (r : List (Call × Option GoError) × String)
    (hstep : installLoop env h m (k :: ks) defers w = installLoop env h m ks defers' w')
    (hround : InstallRound env h m k r.1 r.2)
    (htrace : w'.trace = w.trace ++ r.1)
    (hlines : w'.printfLines = w.printfLines ++ [r.2])
    (ih : ∃ rounds : List (List (Call × Option GoError) × String),
      (installLoop env h m ks defers' w').2.2.printfLines =
        w'.printfLines ++ rounds.map Prod.snd ∧
      (((installLoop env h m ks defers' w').1 = none ∧
          List.Forall₂ (fun k r => InstallRound env h m k r.1 r.2) ks rounds ∧
          (installLoop env h m ks defers' w').2.2.trace =
            w'.trace ++ (rounds.map Prod.fst).flatten) ∨
        (∃ e j, j < ks.length ∧ (installLoop env h m ks defers' w').1 = some e ∧
          List.Forall₂ (fun k r => InstallRound env h m k r.1 r.2) (ks.take j) rounds ∧
          (installLoop env h m ks defers' w').2.2.trace =
            w'.trace ++ (rounds.map Prod.fst).flatten ++
              [(Call.writeFile (targetName env h) m 0o644, some e)]))) :
    ∃ rounds : List (List (Call × Option GoError) × String),
      (installLoop env h m (k :: ks) defers w).2.2.printfLines =
        w.printfLines ++ rounds.map Prod.snd ∧
      (((installLoop env h m (k :: ks) defers w).1 = none ∧
          List.Forall₂ (fun k r => InstallRound env h m k r.1 r.2) (k :: ks) rounds ∧
          (installLoop env h m (k :: ks) defers w).2.2.trace =
            w.trace ++ (rounds.map Prod.fst).flatten) ∨
        (∃ e j, j < (k :: ks).length ∧ (installLoop env h m (k :: ks) defers w).1 = some e ∧
          List.Forall₂ (fun k r => InstallRound env h m k r.1 r.2) ((k :: ks).take j) rounds ∧
          (installLoop env h m (k :: ks) defers w).2.2.trace =
            w.trace ++ (rounds.map Prod.fst).flatten ++
              [(Call.writeFile (targetName env h) m 0o644, some e)])) := by
  obtain ⟨rounds, hl, hcase⟩ := ih
  refine ⟨r :: rounds, ?_, ?_⟩
  · rw [hstep, hl, hlines]; simp
  · rcases hcase with ⟨hres, hall, ht⟩ | ⟨e, j, hj, hres, hall, ht⟩
    · left
      refine ⟨by rw [hstep]; exact hres, List.Forall₂.cons hround hall, ?_⟩
      rw [hstep, ht, htrace]; simp
    · right
      refine ⟨e, j + 1, by simpa using hj, by rw [hstep]; exact hres, ?_, ?_⟩
      · rw [List.take_succ_cons]
        exact List.Forall₂.cons hround hall
      · rw [hstep, ht, htrace]; simp

theorem installLoop_spec (env : Env) (h : Host) (m : Bytes) (names : List String)
    (defers : List Key) (w : World) :
    ∃ rounds : List (List (Call × Option GoError) × String),
      (installLoop env h m names defers w).2.2.printfLines =
        w.printfLines ++ rounds.map Prod.snd ∧
      (((installLoop env h m names defers w).1 = none ∧
          List.Forall₂ (fun k r => InstallRound env h m k r.1 r.2) names rounds ∧
          (installLoop env h m names defers w).2.2.trace =
            w.trace ++ (rounds.map Prod.fst).flatten) ∨
        (∃ e j, j < names.length ∧ (installLoop env h m names defers w).1 = some e ∧
          List.Forall₂ (fun k r => InstallRound env h m k r.1 r.2) (names.take j) rounds ∧
          (installLoop env h m names defers w).2.2.trace =
            w.trace ++ (rounds.map Prod.fst).flatten ++
              [(Call.writeFile (targetName env h) m 0o644, some e)])) := by
  induction names generalizing defers w with
  | nil =>
    exact ⟨[], by simp [installLoop], Or.inl ⟨rfl, List.Forall₂.nil, by simp [installLoop]⟩⟩
  | cons k ks ih =>
    cases h0 : w.outcome 0 with
    | some e =>
      refine ⟨[], ?_, Or.inr ⟨e, 0, by simp, ?_, by simp, ?_⟩⟩
      · rw [installLoop_writeFail env h m k ks defers w e h0]; simp [World.printfLines]
      · rw [installLoop_writeFail env h m k ks defers w e h0]
      · rw [installLoop_writeFail env h m k ks defers w e h0]; simp
    | none =>
      cases h1 : w.outcome 1 with
      | some e =>
        exact installLoop_combine env h m k ks defers defers w _
          ([(Call.writeFile (targetName env h) m 0o644, none),
            (Call.createKey (registryName h k) registry.SET_VALUE, some e)],
           "Error installing: HKCU\\" ++ registryName h k ++ ": " ++ e.msg)
          (installLoop_createFail env h m k ks defers w e h0 h1)
          (Or.inl ⟨e, rfl, rfl⟩) rfl (by simp [World.printfLines]) (ih _ _)
      | none =>
        cases h2 : w.outcome 2 with
        | some e =>
          exact installLoop_combine env h m k ks defers _ w _
            ([(Call.writeFile (targetName env h) m 0o644, none),
              (Call.createKey (registryName h k) registry.SET_VALUE, none),
              (Call.setStringValue (some (registryName h k)) "" (targetName env h), some e)],
             "Error installing: HKCU\\" ++ registryName h k ++ ": " ++ e.msg)
            (installLoop_setFail env h m k ks defers w e h0 h1 h2)
            (Or.inr (Or.inl ⟨e, rfl, rfl⟩)) rfl (by simp [World.printfLines]) (ih _ _)
        | none =>
          exact installLoop_combine env h m k ks defers _ w _
            ([(Call.writeFile (targetName env h) m 0o644, none),
              (Call.createKey (registryName h k) registry.SET_VALUE, none),
              (Call.setStringValue (some (registryName h k)) "" (targetName env h), none)],
             "Installed: HKCU\\" ++ registryName h k)
            (installLoop_ok env h m k ks defers w h0 h1 h2)
            (Or.inr (Or.inr ⟨rfl, rfl⟩)) rfl (by simp [World.printfLines]) (ih _ _)

end Windows

theorem Darwin.installLoop_result (m : Bytes) (ts : List String) (w : World) :
    ∃ evs, (Darwin.installLoop m ts w).2.trace = w.trace ++ evs ∧
      (∀ e, (Darwin.installLoop m ts w).1 = some e →
        ∃ c : Call, c.isWrite = true ∧ (c, some e) ∈ evs) ∧
      ((Darwin.installLoop m ts w).1 = none →
        (Darwin.installLoop m ts w).2.files = fun p => if p ∈ ts then some m else w.files p) := by
  induction ts generalizing w with
  | nil => exact ⟨[], by simp [Darwin.installLoop], by simp [Darwin.installLoop],
      by simp [Darwin.installLoop]⟩
  | cons t ts ih =>
    cases h0 : w.outcome 0 with
    | some e =>
      rw [Darwin.installLoop_fail_mkdir m t ts w e h0]
      refine ⟨[(Call.mkdirAll (filepath.Dir t) 0o755, some e)], rfl, ?_, by simp⟩
      intro e' he'
      simp only [Option.some.injEq] at he'
      subst he'
      exact ⟨Call.mkdirAll (filepath.Dir t) 0o755, rfl, List.mem_singleton.mpr rfl⟩
    | none =>
      cases h1 : w.outcome 1 with
      | some e =>
        rw [Darwin.installLoop_fail_write m t ts w e h0 h1]
        refine ⟨[(Call.mkdirAll (filepath.Dir t) 0o755, none),
          (Call.writeFile t m 0o644, some e)], by simp, ?_, by simp⟩
        intro e' he'
        simp only [Option.some.injEq] at he'
        subst he'
        exact ⟨Call.writeFile t m 0o644, rfl, by simp⟩
      | none =>
        rw [Darwin.installLoop_step m t ts w h0 h1]
        obtain ⟨evs, ht, herr, hok⟩ := ih (Darwin.installed m [t] w)
        refine ⟨[(Call.mkdirAll (filepath.Dir t) 0o755, none),
          (Call.writeFile t m 0o644, none)] ++ evs, ?_, ?_, ?_⟩
        · rw [ht]; simp [Darwin.installed]
        · intro e he
          obtain ⟨c, hc, hmem⟩ := herr e he
          exact ⟨c, hc, List.mem_append_right _ hmem⟩
        · intro hnone
          rw [hok hnone]
          funext p
          by_cases hp : p ∈ ts <;> by_cases hpt : p = t <;> simp [Darwin.installed, hp, hpt]

theorem Darwin.getTargetNames_trace (env : Env) (h : Host) (w : World) :
    ∃ evs, (Darwin.getTargetNames env h w).2.trace = w.trace ++ evs ∧
      ∀ ev ∈ evs, ev.1.isWrite = false := by
  by_cases hu : env.uid = 0
  · rw [Darwin.getTargetNames_root env h w hu]
    exact ⟨[(Call.getuid, none)], rfl, by simp [Call.isWrite]⟩
  · rw [Darwin.getTargetNames_user env h w hu]
    cases env.glob (Darwin.globPattern env) with
    | error err =>
      exact ⟨[(Call.getuid, none), (Call.userHomeDir, (osUserHomeDir env w).1.2),
          (Call.glob (Darwin.globPattern env), some err)],
        by simp [World.record, osUserHomeDir], by simp [Call.isWrite]⟩
    | ok ms =>
      exact ⟨[(Call.getuid, none), (Call.userHomeDir, (osUserHomeDir env w).1.2),
          (Call.glob (Darwin.globPattern env), none)],
        by simp [World.record, osUserHomeDir], by simp [Call.isWrite]⟩

theorem Darwin.Install_outcome (env : Env) (h : Host) (w : World) (ts : List String)
    (hloc : (Darwin.getTargetNames env h w).1 = Except.ok ts) :
    ∃ evs, (Darwin.Install env h w).2.trace = w.trace ++ evs ∧
      (∀ e, (Darwin.Install env h w).1 = some e →
        ∃ c : Call, c.isWrite = true ∧ (c, some e) ∈ evs) ∧
      ((Darwin.Install env h w).1 = none →
        (Darwin.Install env h w).2.files =
          fun p => if p ∈ ts then some (env.jsonMarshalIndent h "" "  ").1 else w.files p) := by
  obtain ⟨evs0, ht0, -⟩ := Darwin.getTargetNames_trace env h w
  have hfr := (Darwin.getTargetNames_frame env h w).2.1
  have hrun : Darwin.Install env h w =
      Darwin.installLoop (env.jsonMarshalIndent h "" "  ").1 ts
        (Darwin.getTargetNames env h w).2 := by
    have : Darwin.getTargetNames env h w = (Except.ok ts, (Darwin.getTargetNames env h w).2) := by
      rw [← hloc]
    simp only [Darwin.Install]
    rw [this]
  obtain ⟨evs, ht, herr, hok⟩ := Darwin.installLoop_result (env.jsonMarshalIndent h "" "  ").1 ts
    (Darwin.getTargetNames env h w).2
  refine ⟨evs0 ++ evs, ?_, ?_, ?_⟩
  · rw [hrun, ht, ht0, List.append_assoc]
  · intro e he
    rw [hrun] at he
    obtain ⟨c, hc, hmem⟩ := herr e he
    exact ⟨c, hc, List.mem_append_right _ hmem⟩
  · intro hnone
    rw [hrun] at hnone ⊢
    rw [hok hnone, hfr]

theorem Windows.installLoop_files (env : Env) (h : Host) (m : Bytes) (names : List String)
    (defers : List Key) (w : World)
    (hnone : (Windows.installLoop env h m names defers w).1 = none) :
    (Windows.installLoop env h m names defers w).2.2.files =
      fun p => if names ≠ [] ∧ p = Windows.targetName env h then some m else w.files p := by
  induction names generalizing defers w with
  | nil => simp [Windows.installLoop]
  | cons k ks ih =>
    have hfiles : ∀ (v : World),
        v.files = (fun p => if p = Windows.targetName env h then some m else w.files p) →
        (fun p => if ks ≠ [] ∧ p = Windows.targetName env h then some m else v.files p) =
        fun p => if k :: ks ≠ [] ∧ p = Windows.targetName env h then some m else w.files p := by
      intro v hv
      funext p
      rw [hv]
      by_cases hp : p = Windows.targetName env h <;> simp [hp]
    cases h0 : w.outcome 0 with
    | some e =>
      rw [Windows.installLoop_writeFail env h m k ks defers w e h0] at hnone
      simp at hnone
    | none =>
      cases h1 : w.outcome 1 with
      | some e =>
        rw [Windows.installLoop_createFail env h m k ks defers w e h0 h1] at hnone ⊢
        rw [ih _ _ hnone]
        exact hfiles _ rfl
      | none =>
        cases h2 : w.outcome 2 with
        | some e =>
          rw [Windows.installLoop_setFail env h m k ks defers w e h0 h1 h2] at hnone ⊢
          rw [ih _ _ hnone]
          exact hfiles _ rfl
        | none =>
          rw [Windows.installLoop_ok env h m k ks defers w h0 h1 h2] at hnone ⊢
          rw [ih _ _ hnone]
          exact hfiles _ rfl

theorem Windows.Install_outcome_registry (env : Env) (h : Host) (w : World) (names : List String)
    (hloc : (Windows.getTargetNames env h w).1 = Except.ok names) :
    ∃ evs, (Windows.Install env h w).2.trace = w.trace ++ evs ∧
      (∀ e, (Windows.Install env h w).1 = some e →
        ∃ c : Call, c.isWrite = true ∧ (c, some e) ∈ evs) ∧
      ((Windows.Install env h w).1 = none →
        (Windows.Install env h w).2.files =
          fun p => if names ≠ [] ∧ p = Windows.targetName env h
            then some (env.jsonMarshalIndent h "" "  ").1 else w.files p) := by
  have hloc' : Windows.getTargetNames env h w =
      (Except.ok names, (Windows.getTargetNames env h w).2) := by
    rw [← hloc]
  have hw1 : ∃ r, (Windows.getTargetNames env h w).2 = Windows.located w r := by
    rw [Windows.getTargetNames_eq]
    cases env.subKeyNames (Windows.openedKey w) with
    | error err => exact ⟨_, rfl⟩
    | ok ns => exact ⟨_, rfl⟩
  obtain ⟨r, hw1⟩ := hw1
  generalize hm : (env.jsonMarshalIndent h "" "  ").1 = m
  generalize hv : (Windows.getTargetNames env h w).2 = w1 at hloc' hw1
  have hrun : Windows.Install env h w =
      ((Windows.installLoop env h m names [] w1).1,
        runDeferred (Windows.installLoop env h m names [] w1).2.1
          (Windows.installLoop env h m names [] w1).2.2) := by
    simp only [Windows.Install, hloc', hm]
  obtain ⟨rounds, -, hcase⟩ := Windows.installLoop_spec env h m names [] w1
  have hfiles1 : w1.files = w.files := by rw [hw1]; rfl
  have htrace1 : ∃ evs0, w1.trace = w.trace ++ evs0 := ⟨_, by rw [hw1]; rfl⟩
  obtain ⟨evs0, htrace1⟩ := htrace1
  rcases hcase with ⟨hres, -, ht⟩ | ⟨e, j, -, hres, -, ht⟩
  · refine ⟨evs0 ++ (rounds.map Prod.fst).flatten ++
      (Windows.installLoop env h m names [] w1).2.1.map (fun k => (Call.closeKey k, none)),
      ?_, ?_, ?_⟩
    · rw [hrun, runDeferred_eq]
      simp only [ht, htrace1, List.append_assoc]
    · intro e he
      rw [hrun] at he
      simp only [hres] at he
      cases he
    · intro _
      rw [hrun, runDeferred_eq]
      simp only
      rw [Windows.installLoop_files env h m names [] w1 hres, hfiles1]
  · refine ⟨evs0 ++ (rounds.map Prod.fst).flatten ++
      [(Call.writeFile (Windows.targetName env h) m 0o644, some e)] ++
      (Windows.installLoop env h m names [] w1).2.1.map (fun k => (Call.closeKey k, none)),
      ?_, ?_, ?_⟩
    · rw [hrun, runDeferred_eq]
      simp only [ht, htrace1, List.append_assoc]
    · intro e' he'
      rw [hrun] at he'
      simp only [hres, Option.some.injEq] at he'
      subst he'
      exact ⟨Call.writeFile (Windows.targetName env h) m 0o644, rfl, by simp⟩
    · intro hnone
      rw [hrun] at hnone
      simp only [hres] at hnone
      cases hnone

theorem since_append (w v : World) (evs : List (Call × Option GoError))
    (h : v.trace = w.trace ++ evs) : v.since w = evs := by
  simp [World.since, h]

/-! ## Lemmas on paths -/

namespace filepath

namespace windows

end windows

end filepath

/-- The run of `Install` on the registry platform, one round per target: the
manifest write, `CreateKey` and, when the key was created, `SetStringValue`.
A failure of `CreateKey` or `SetStringValue` is logged and the next round
follows; a failed manifest write ends the run with that error.  Only the
deferred `Close` calls follow the rounds. -/
theorem Windows.Install_rounds (env : Env) (h : Host) (w w1 : World)
    (names : List String)
    (hloc : Windows.getTargetNames env h w = (Except.ok names, w1)) :
    ∃ (rounds : List (List (Call × Option GoError) × String))
      (closes : List (Call × Option GoError)),
      (∀ ev ∈ closes, ∃ k, ev = (Call.closeKey k, none)) ∧
      (Windows.Install env h w).2.printfLines = w.printfLines ++ rounds.map Prod.snd ∧
      (((Windows.Install env h w).1 = none ∧
          List.Forall₂
            (fun k r => Windows.InstallRound env h (env.jsonMarshalIndent h "" "  ").1 k r.1 r.2)
            names rounds ∧
          (Windows.Install env h w).2.trace =
            w1.trace ++ (rounds.map Prod.fst).flatten ++ closes) ∨
        (∃ e j, j < names.length ∧ (Windows.Install env h w).1 = some e ∧
          List.Forall₂
            (fun k r => Windows.InstallRound env h (env.jsonMarshalIndent h "" "  ").1 k r.1 r.2)
            (names.take j) rounds ∧
          (Windows.Install env h w).2.trace =
            w1.trace ++ (rounds.map Prod.fst).flatten ++
              [(Call.writeFile (Windows.targetName env h) (env.jsonMarshalIndent h "" "  ").1
                0o644, some e)] ++ closes)) := by
  have hw1 : w1.printfLines = w.printfLines := by
    rw [Windows.getTargetNames_eq] at hloc
    cases hs : env.subKeyNames (Windows.openedKey w) with
    | error err => simp [hs] at hloc
    | ok ns =>
      simp only [hs, Prod.mk.injEq] at hloc
      rw [← hloc.2]; rfl
  generalize hm : (env.jsonMarshalIndent h "" "  ").1 = m
  have hrun : Windows.Install env h w =
      ((Windows.installLoop env h m names [] w1).1,
        runDeferred (Windows.installLoop env h m names [] w1).2.1
          (Windows.installLoop env h m names [] w1).2.2) := by
    simp only [Windows.Install, hloc, hm]
  obtain ⟨rounds, hl, hcase⟩ := Windows.installLoop_spec env h m names [] w1
  refine ⟨rounds, (Windows.installLoop env h m names [] w1).2.1.map
    (fun k => (Call.closeKey k, none)), ?_, ?_, ?_⟩
  · intro ev hev
    obtain ⟨k, -, rfl⟩ := List.mem_map.mp hev
    exact ⟨k, rfl⟩
  · rw [hrun, runDeferred_eq, ← hw1, ← hl]; rfl
  · rcases hcase with ⟨hres, hall, ht⟩ | ⟨e, j, hj, hres, hall, ht⟩
    · left
      refine ⟨by rw [hrun]; exact hres, hall, ?_⟩
      rw [hrun, runDeferred_eq]
      simp only [ht]
    · right
      refine ⟨e, j, hj, by rw [hrun]; exact hres, hall, ?_⟩
      rw [hrun, runDeferred_eq]
      simp only [ht]

/-- The run of `Uninstall` on the registry platform, one round per target:
when the registration key opens, `DeleteValue` and the three removals, each
whatever the outcome of the calls before it; when it fails to open, only the
log line.  `runtimeGoexit()` and the deferred `Close` calls follow. -/
theorem Windows.Uninstall_rounds (env : Env) (h : Host) (w w1 : World)
    (names : List String)
    (hloc : Windows.getTargetNames env h w = (Except.ok names, w1)) :
    ∃ (rounds : List (List (Call × Option GoError) × String))
      (closes : List (Call × Option GoError)),
      List.Forall₂ (fun k r => Windows.UninstallRound env h k r.1 r.2) names rounds ∧
      (Windows.Uninstall env h w).trace =
        w1.trace ++ (rounds.map Prod.fst).flatten ++ [(Call.goexit, none)] ++ closes ∧
      (∀ ev ∈ closes, ∃ k, ev = (Call.closeKey k, none)) ∧
      (Windows.Uninstall env h w).printfLines = w.printfLines ++ rounds.map Prod.snd := by
  have hw1 : w1.printfLines = w.printfLines := by
    rw [Windows.getTargetNames_eq] at hloc
    cases hs : env.subKeyNames (Windows.openedKey w) with
    | error err => simp [hs] at hloc
    | ok ns =>
      simp only [hs, Prod.mk.injEq] at hloc
      rw [← hloc.2]; rfl
  have hrun : Windows.Uninstall env h w =
      runDeferred (Windows.uninstallLoop env h names [] w1).1
        (runtimeGoexit (Windows.uninstallLoop env h names [] w1).2) := by
    simp only [Windows.Uninstall, hloc]
  obtain ⟨rounds, hall, ht, hl⟩ := Windows.uninstallLoop_spec env h names [] w1
  refine ⟨rounds, (Windows.uninstallLoop env h names [] w1).1.map
    (fun k => (Call.closeKey k, none)), hall, ?_, ?_, ?_⟩
  · rw [hrun, runDeferred_eq]
    simp only [runtimeGoexit, World.record, ht]
  · intro ev hev
    obtain ⟨k, -, rfl⟩ := List.mem_map.mp hev
    exact ⟨k, rfl⟩
  · rw [hrun, runDeferred_eq, ← hw1, ← hl]; rfl

/-- C1: on the registry platform, whenever enumerating the subkeys of
`HKCU\SOFTWARE\Google` yields the list `names`, `getTargetNames` returns a
nil error and the targets `SOFTWARE\Google\<name>` of exactly the names for
which `strings.HasPrefix(name, "Chrome")` holds, in enumeration order; and
that test holds exactly for the names that start, with matching case, with
the six characters `Chrome`. -/
theorem C1_getTargetNames_chrome_subkeys (env : Env) (h : Host) (w : World)
    (names : List String)
    (hread : env.subKeyNames (Windows.openedKey w) = Except.ok names) :
    (Windows.getTargetNames env h w).1 =
      Except.ok ((names.filter fun n => strings.HasPrefix n "Chrome").map
        fun n => "SOFTWARE\\Google\\" ++ n) ∧
    ∀ n : String, strings.HasPrefix n "Chrome" = true ↔ ∃ rest : String, n = "Chrome" ++ rest := by
  refine ⟨?_, fun n => strings.HasPrefix_iff n "Chrome"⟩
  rw [Windows.getTargetNames_eq, hread]

/-- Witness of C1: the subkeys of the specification and two near misses. -/
theorem C1_getTargetNames_chrome_subkeys_witness :
    (Windows.getTargetNames envUser hostWin worldEmpty).1 =
      Except.ok ["SOFTWARE\\Google\\Chrome", "SOFTWARE\\Google\\ChromeBeta"] :=
  (C1_getTargetNames_chrome_subkeys envUser hostWin worldEmpty
    ["Chrome", "ChromeBeta", "Edge", "Other", "chrome", "GoogleChrome"] (by rfl)).1

/-- C2: the run of `Install` on the registry platform with the channels
`Chrome` and `ChromeBeta`, when creating the registration key of `Chrome`
fails with "Access is denied.".  The claim, like the comment of `Install`
("It will return error when it come across one"), has the error returned at
once and no further target processed; the code logs the failure, goes on to
write the manifest and register the host for `ChromeBeta`, and returns nil. -/
theorem C2_install_returns_nil_after_createKey_failure :
    (Windows.Install envUser hostWin worldCreateKeyDenied).1 = none ∧
    (Windows.Install envUser hostWin worldCreateKeyDenied).2.trace =
      [(Call.openKey "SOFTWARE\\Google" 9, none),
       (Call.readSubKeyNames (some "SOFTWARE\\Google") 0, none),
       (Call.closeKey (some "SOFTWARE\\Google"), none),
       (Call.writeFile "C:\\demo\\demo.json" (sampleMarshal hostWin "" "  ").1 0o644, none),
       (Call.createKey "SOFTWARE\\Google\\Chrome\\NativeMessagingHosts\\demo" 2,
         some ⟨"Access is denied."⟩),
       (Call.writeFile "C:\\demo\\demo.json" (sampleMarshal hostWin "" "  ").1 0o644, none),
       (Call.createKey "SOFTWARE\\Google\\ChromeBeta\\NativeMessagingHosts\\demo" 2, none),
       (Call.setStringValue (some "SOFTWARE\\Google\\ChromeBeta\\NativeMessagingHosts\\demo") ""
         "C:\\demo\\demo.json", none),
       (Call.closeKey (some "SOFTWARE\\Google\\ChromeBeta\\NativeMessagingHosts\\demo"), none)] ∧
    (Windows.Install envUser hostWin worldCreateKeyDenied).2.log =
      [LogEntry.printf
        "Error installing: HKCU\\SOFTWARE\\Google\\Chrome\\NativeMessagingHosts\\demo: Access is denied.",
       LogEntry.printf "Installed: HKCU\\SOFTWARE\\Google\\ChromeBeta\\NativeMessagingHosts\\demo"] := by
  refine ⟨?_, ?_, ?_⟩ <;> rfl

/-- C3: the run of `Uninstall` on the registry platform when everything is
installed but the registration key fails to open for both channels.  The
claim has the manifest file, the executable and its checksum file removed
whatever the outcome of the calls before; the code, in which the removals
stand in the `else` branch of the `OpenKey` check, attempts no removal at
all, and the three files stay in place. -/
theorem C3_uninstall_skips_removals_when_openKey_fails :
    (Windows.Uninstall envUser hostWin worldOpenKeyFails).trace =
      [(Call.openKey "SOFTWARE\\Google" 9, none),
       (Call.readSubKeyNames (some "SOFTWARE\\Google") 0, none),
       (Call.closeKey (some "SOFTWARE\\Google"), none),
       (Call.openKey "SOFTWARE\\Google\\Chrome\\NativeMessagingHosts\\demo" 2,
         some ⟨"The system cannot find the file specified."⟩),
       (Call.openKey "SOFTWARE\\Google\\ChromeBeta\\NativeMessagingHosts\\demo" 2,
         some ⟨"Access is denied."⟩),
       (Call.goexit, none)] ∧
    (Windows.Uninstall envUser hostWin worldOpenKeyFails).files "C:\\demo\\demo.json" = some [1] ∧
    (Windows.Uninstall envUser hostWin worldOpenKeyFails).files "C:\\demo\\demo.exe" = some [1] ∧
    (Windows.Uninstall envUser hostWin worldOpenKeyFails).files "C:\\demo\\demo.exe.chk" = some [1] := by
  refine ⟨?_, ?_, ?_, ?_⟩ <;> rfl

/-- C5: on the directory platform, when `getTargetNames` returns `targets`
and every directory creation and file write succeeds (the outcomes scripted
for the `2 * targets.length` calls of the loop are successes), `Install`
returns nil; after the calls of the locator it has issued, for each target in
locator order, `osMkdirAll(filepath.Dir(target), 0755)` and then
`ioutilWriteFile(target, manifest, 0644)` with the bytes `json.MarshalIndent(h,
"", "  ")` returned, and nothing else; it has logged exactly one line
`Installed: <target>` per target; and every target file holds the manifest
bytes. -/
theorem C5_install_success (env : Env) (h : Host) (w w1 : World) (targets : List String)
    (hloc : Darwin.getTargetNames env h w = (Except.ok targets, w1))
    (hok : ∀ i < 2 * targets.length, w.outcome i = none) :
    (Darwin.Install env h w).1 = none ∧
    (Darwin.Install env h w).2.trace = w1.trace ++ targets.flatMap (fun t =>
      [(Call.mkdirAll (filepath.Dir t) 0o755, none),
       (Call.writeFile t (env.jsonMarshalIndent h "" "  ").1 0o644, none)]) ∧
    (Darwin.Install env h w).2.log =
      w.log ++ targets.map (fun t => LogEntry.printf ("Installed: " ++ t)) ∧
    ∀ t ∈ targets, (Darwin.Install env h w).2.files t = some (env.jsonMarshalIndent h "" "  ").1 := by
  have hfr := Darwin.getTargetNames_frame env h w
  rw [hloc] at hfr
  simp only at hfr
  obtain ⟨hfaults, -, -, hlog⟩ := hfr
  have hok1 : ∀ i < 2 * targets.length, w1.outcome i = none := by
    intro i hi
    have := hok i hi
    simpa only [World.outcome, hfaults] using this
  have hrun : Darwin.Install env h w =
      (none, Darwin.installed (env.jsonMarshalIndent h "" "  ").1 targets w1) := by
    have := Darwin.installLoop_append (env.jsonMarshalIndent h "" "  ").1 targets [] w1 hok1
    simp only [List.append_nil] at this
    simp only [Darwin.Install, hloc, this, Darwin.installLoop]
  rw [hrun]
  refine ⟨rfl, rfl, ?_, ?_⟩
  · simp [Darwin.installed, hlog]
  · intro t ht
    simp [Darwin.installed, ht]

/-- Witness of C5: the scenario of the specification, descriptor `demo` and
one matched directory. -/
theorem C5_install_success_witness :
    (Darwin.Install envUser hostDemo worldEmpty).1 = none ∧
    (Darwin.Install envUser hostDemo worldEmpty).2.log = [LogEntry.printf
      "Installed: /home/u/Library/Application Support/Google/Chrome/NativeMessagingHosts/demo.json"] ∧
    (Darwin.Install envUser hostDemo worldEmpty).2.files
      "/home/u/Library/Application Support/Google/Chrome/NativeMessagingHosts/demo.json" =
      some (sampleMarshal hostDemo "" "  ").1 := by
  have h := C5_install_success envUser hostDemo worldEmpty
    (Darwin.getTargetNames envUser hostDemo worldEmpty).2
    ["/home/u/Library/Application Support/Google/Chrome/NativeMessagingHosts/demo.json"]
    (by rfl) (by intro i _; simp [World.outcome, worldEmpty])
  exact ⟨h.1, h.2.2.1, h.2.2.2 _ (List.mem_singleton.mpr rfl)⟩

/-- C7: on the directory platform, when `getTargetNames` returns `targets`,
then for every script of outcomes of the removals (all failing included)
`Uninstall`, which has no result and so surfaces no error, issues after the
calls of the locator exactly `os.Remove(target)`, `os.Remove(ExecName)` and
`os.Remove(ExecName + ".chk")` for each target in order and then
`runtimeGoexit()`; it logs one line `Uninstalled: <target>` per target, in
order; and the process-terminating step is invoked exactly once. -/
theorem C7_uninstall_runs_to_completion (env : Env) (h : Host) (w w1 : World)
    (targets : List String)
    (hloc : Darwin.getTargetNames env h w = (Except.ok targets, w1)) :
    (Darwin.Uninstall env h w).calls =
      w1.calls ++
      targets.flatMap (fun t =>
        [Call.remove t, Call.remove h.ExecName, Call.remove (h.ExecName ++ ".chk")]) ++
      [Call.goexit] ∧
    (Darwin.Uninstall env h w).printfLines =
      w.printfLines ++ targets.map (fun t => "Uninstalled: " ++ t) ∧
    ((Darwin.Uninstall env h w).calls.drop w.calls.length).count Call.goexit = 1 := by
  have hfr := Darwin.getTargetNames_frame env h w
  have hcalls := Darwin.getTargetNames_calls env h w
  rw [hloc] at hfr hcalls
  simp only at hfr hcalls
  have hrun : Darwin.Uninstall env h w = runtimeGoexit (Darwin.uninstallLoop h targets w1) := by
    simp only [Darwin.Uninstall, hloc]
  have hc : (Darwin.Uninstall env h w).calls =
      w1.calls ++
      targets.flatMap (fun t =>
        [Call.remove t, Call.remove h.ExecName, Call.remove (h.ExecName ++ ".chk")]) ++
      [Call.goexit] := by
    rw [hrun]
    have : ∀ v : World, (runtimeGoexit v).calls = v.calls ++ [Call.goexit] := by
      intro v; simp [runtimeGoexit, World.record, World.calls]
    rw [this, Darwin.uninstallLoop_calls]
  refine ⟨hc, ?_, ?_⟩
  · rw [hrun]
    have : ∀ v : World, (runtimeGoexit v).printfLines = v.printfLines := by
      intro v; rfl
    rw [this, Darwin.uninstallLoop_printfLines]
    simp [World.printfLines, hfr.2.2.2]
  · rw [hc, hcalls]
    simp only [List.append_assoc, List.drop_left, List.count_append]
    have h1 : List.count Call.goexit (targets.flatMap (fun t =>
        [Call.remove t, Call.remove h.ExecName, Call.remove (h.ExecName ++ ".chk")])) = 0 := by
      rw [List.count_eq_zero]
      simp [List.mem_flatMap]
    rw [h1]
    split <;> simp

/-- Witness of C7: nothing was ever installed and all three removals fail
with "not found". -/
theorem C7_uninstall_runs_to_completion_witness :
    (Darwin.Uninstall envUser hostDemo
      { worldEmpty with faults := List.replicate 3 (some ⟨"no such file or directory"⟩) }).calls =
      [Call.getuid, Call.userHomeDir,
       Call.glob "/home/u/Library/Application Support/Google/Chrome/NativeMessagingHosts",
       Call.remove
         "/home/u/Library/Application Support/Google/Chrome/NativeMessagingHosts/demo.json",
       Call.remove "/opt/demo/bin", Call.remove "/opt/demo/bin.chk", Call.goexit] ∧
    (Darwin.Uninstall envUser hostDemo
      { worldEmpty with faults := List.replicate 3 (some ⟨"no such file or directory"⟩) }).printfLines =
      ["Uninstalled: /home/u/Library/Application Support/Google/Chrome/NativeMessagingHosts/demo.json"] := by
  have h := C7_uninstall_runs_to_completion envUser hostDemo
    { worldEmpty with faults := List.replicate 3 (some ⟨"no such file or directory"⟩) }
    (Darwin.getTargetNames envUser hostDemo
      { worldEmpty with faults := List.replicate 3 (some ⟨"no such file or directory"⟩) }).2
    ["/home/u/Library/Application Support/Google/Chrome/NativeMessagingHosts/demo.json"]
    (by rfl)
  exact ⟨h.1, h.2.1⟩

/-- C8: `Install` is idempotent on manifest content, on the directory
platform (first group of hypotheses) and on the registry platform (second
group, for any environment and world of its own).  When `Install` runs in
`w` and then again in the world `w1` it left, `getTargetNames` returns the
same targets in both runs, and no directory creation or file write issued by
the two runs fails, then both runs return nil and at every target the
manifest file holds, after the second run, the same bytes as after the
first: the serialization `json.MarshalIndent(h, "", "  ")`. -/
theorem C8_install_idempotent
    (envD : Env) (hD : Host) (wD wD1 wD2 : World) (rD1 rD2 : Option GoError)
    (targets : List String)
    (envW : Env) (hW : Host) (wW wW1 wW2 : World) (rW1 rW2 : Option GoError)
    (names : List String)
    (hD1 : Darwin.Install envD hD wD = (rD1, wD1))
    (hD2 : Darwin.Install envD hD wD1 = (rD2, wD2))
    (hlocD1 : (Darwin.getTargetNames envD hD wD).1 = Except.ok targets)
    (hlocD2 : (Darwin.getTargetNames envD hD wD1).1 = Except.ok targets)
    (hwritesD1 : ∀ ev ∈ wD1.since wD, ev.1.isWrite = true → ev.2 = none)
    (hwritesD2 : ∀ ev ∈ wD2.since wD1, ev.1.isWrite = true → ev.2 = none)
    (hW1 : Windows.Install envW hW wW = (rW1, wW1))
    (hW2 : Windows.Install envW hW wW1 = (rW2, wW2))
    (hlocW1 : (Windows.getTargetNames envW hW wW).1 = Except.ok names)
    (hlocW2 : (Windows.getTargetNames envW hW wW1).1 = Except.ok names)
    (hwritesW1 : ∀ ev ∈ wW1.since wW, ev.1.isWrite = true → ev.2 = none)
    (hwritesW2 : ∀ ev ∈ wW2.since wW1, ev.1.isWrite = true → ev.2 = none) :
    (rD1 = none ∧ rD2 = none ∧
      ∀ t ∈ targets,
        wD1.files t = some (envD.jsonMarshalIndent hD "" "  ").1 ∧
        wD2.files t = wD1.files t) ∧
    (rW1 = none ∧ rW2 = none ∧
      ∀ k ∈ names,
        wW1.files (envW.winJoin (envW.winDir hW.ExecName) (hW.AppName ++ ".json")) =
          some (envW.jsonMarshalIndent hW "" "  ").1 ∧
        wW2.files (envW.winJoin (envW.winDir hW.ExecName) (hW.AppName ++ ".json")) =
          wW1.files (envW.winJoin (envW.winDir hW.ExecName) (hW.AppName ++ ".json"))) := by
  have key : ∀ (r : Option GoError) (evs : List (Call × Option GoError)),
      (∀ ev ∈ evs, ev.1.isWrite = true → ev.2 = none) →
      (∀ e, r = some e → ∃ c : Call, c.isWrite = true ∧ (c, some e) ∈ evs) → r = none := by
    intro r evs hw herr
    cases r with
    | none => rfl
    | some e =>
      obtain ⟨c, hc, hmem⟩ := herr e rfl
      have := hw _ hmem hc
      simp at this
  constructor
  · obtain ⟨evs1, ht1, herr1, hok1⟩ := Darwin.Install_outcome envD hD wD targets hlocD1
    obtain ⟨evs2, ht2, herr2, hok2⟩ := Darwin.Install_outcome envD hD wD1 targets hlocD2
    rw [hD1] at ht1 herr1 hok1
    rw [hD2] at ht2 herr2 hok2
    simp only at ht1 herr1 hok1 ht2 herr2 hok2
    rw [since_append wD wD1 evs1 ht1] at hwritesD1
    rw [since_append wD1 wD2 evs2 ht2] at hwritesD2
    have h1 : rD1 = none := key rD1 evs1 hwritesD1 herr1
    have h2 : rD2 = none := key rD2 evs2 hwritesD2 herr2
    refine ⟨h1, h2, ?_⟩
    intro t ht
    rw [hok2 h2, hok1 h1]
    simp [ht]
  · obtain ⟨evs1, ht1, herr1, hok1⟩ := Windows.Install_outcome_registry envW hW wW names hlocW1
    obtain ⟨evs2, ht2, herr2, hok2⟩ := Windows.Install_outcome_registry envW hW wW1 names hlocW2
    rw [hW1] at ht1 herr1 hok1
    rw [hW2] at ht2 herr2 hok2
    simp only at ht1 herr1 hok1 ht2 herr2 hok2
    rw [since_append wW wW1 evs1 ht1] at hwritesW1
    rw [since_append wW1 wW2 evs2 ht2] at hwritesW2
    have h1 : rW1 = none := key rW1 evs1 hwritesW1 herr1
    have h2 : rW2 = none := key rW2 evs2 hwritesW2 herr2
    refine ⟨h1, h2, ?_⟩
    intro k hk
    have hne : names ≠ [] := List.ne_nil_of_mem hk
    rw [hok2 h2, hok1 h1]
    simp [hne, Windows.targetName]

/-- Witness of C8: two installs of `demo` for an ordinary user; on the
registry platform `CreateKey` is denied for one channel during the first
run, while every write succeeds. -/
theorem C8_install_idempotent_witness :
    ((Darwin.Install envUser hostDemo worldEmpty).1 = none ∧
      (Darwin.Install envUser hostDemo (Darwin.Install envUser hostDemo worldEmpty).2).1 = none ∧
      ∀ t ∈ ["/home/u/Library/Application Support/Google/Chrome/NativeMessagingHosts/demo.json"],
        (Darwin.Install envUser hostDemo worldEmpty).2.files t =
          some (envUser.jsonMarshalIndent hostDemo "" "  ").1 ∧
        (Darwin.Install envUser hostDemo (Darwin.Install envUser hostDemo worldEmpty).2).2.files t =
          (Darwin.Install envUser hostDemo worldEmpty).2.files t) ∧
    ((Windows.Install envUser hostWin worldCreateKeyDenied).1 = none ∧
      (Windows.Install envUser hostWin
        (Windows.Install envUser hostWin worldCreateKeyDenied).2).1 = none ∧
      ∀ k ∈ ["SOFTWARE\\Google\\Chrome", "SOFTWARE\\Google\\ChromeBeta"],
        (Windows.Install envUser hostWin worldCreateKeyDenied).2.files
          (envUser.winJoin (envUser.winDir hostWin.ExecName) (hostWin.AppName ++ ".json")) =
          some (envUser.jsonMarshalIndent hostWin "" "  ").1 ∧
        (Windows.Install envUser hostWin
          (Windows.Install envUser hostWin worldCreateKeyDenied).2).2.files
          (envUser.winJoin (envUser.winDir hostWin.ExecName) (hostWin.AppName ++ ".json")) =
          (Windows.Install envUser hostWin worldCreateKeyDenied).2.files
            (envUser.winJoin (envUser.winDir hostWin.ExecName) (hostWin.AppName ++ ".json"))) :=
  C8_install_idempotent
    envUser hostDemo worldEmpty
    (Darwin.Install envUser hostDemo worldEmpty).2
    (Darwin.Install envUser hostDemo (Darwin.Install envUser hostDemo worldEmpty).2).2
    (Darwin.Install envUser hostDemo worldEmpty).1
    (Darwin.Install envUser hostDemo (Darwin.Install envUser hostDemo worldEmpty).2).1
    ["/home/u/Library/Application Support/Google/Chrome/NativeMessagingHosts/demo.json"]
    envUser hostWin worldCreateKeyDenied
    (Windows.Install envUser hostWin worldCreateKeyDenied).2
    (Windows.Install envUser hostWin (Windows.Install envUser hostWin worldCreateKeyDenied).2).2
    (Windows.Install envUser hostWin worldCreateKeyDenied).1
    (Windows.Install envUser hostWin (Windows.Install envUser hostWin worldCreateKeyDenied).2).1
    ["SOFTWARE\\Google\\Chrome", "SOFTWARE\\Google\\ChromeBeta"]
    rfl rfl (by rfl) (by rfl) (by decide) (by decide)
    rfl rfl (by rfl) (by rfl) (by decide) (by decide)

/-- C9: on the directory platform, when the process runs with uid 0,
`getTargetNames` returns the empty list and a nil error for every descriptor,
home directory and file system state; the only primitive it calls is
`os.Getuid`, so neither the home directory nor the glob primitive is
consulted, and files, registry and log are left as they were. -/
theorem C9_getTargetNames_root (env : Env) (h : Host) (w : World) (hroot : env.uid = 0) :
    Darwin.getTargetNames env h w =
      (Except.ok [], { w with trace := w.trace ++ [(Call.getuid, none)] }) := by
  rw [Darwin.getTargetNames_root env h w hroot]
  rfl

/-- Witness of C9: root with a home directory whose Chrome directory exists. -/
theorem C9_getTargetNames_root_witness :
    ({ envUser with uid := 0 } : Env).uid = 0 ∧
    Darwin.getTargetNames { envUser with uid := 0 } hostDemo worldEmpty =
      (Except.ok [], { worldEmpty with trace := worldEmpty.trace ++ [(Call.getuid, none)] }) :=
  ⟨rfl, C9_getTargetNames_root { envUser with uid := 0 } hostDemo worldEmpty rfl⟩

/-- C10: when `getTargetNames` returns an empty list without error, on the
directory platform (first hypothesis) and on the registry platform (second
hypothesis, for any environment and world of its own), `Uninstall` issues
after the calls of the locator the single call `runtimeGoexit()`: no call of
the whole run changes files or registry, which are as before, so the
manifest, `ExecName` and `ExecName + ".chk"` stay in place; and `Install`
returns nil and issues no call after those of the locator, so it writes
nothing. -/
theorem C10_no_targets_no_removal
    (envD : Env) (hD : Host) (wD wD1 : World)
    (envW : Env) (hW : Host) (wW wW1 : World)
    (hlocD : Darwin.getTargetNames envD hD wD = (Except.ok [], wD1))
    (hlocW : Windows.getTargetNames envW hW wW = (Except.ok [], wW1)) :
    (Darwin.Uninstall envD hD wD = { wD1 with trace := wD1.trace ++ [(Call.goexit, none)] } ∧
      (∀ ev ∈ (Darwin.Uninstall envD hD wD).since wD, ev.1.mutates = false) ∧
      (Darwin.Uninstall envD hD wD).files = wD.files ∧
      (Darwin.Uninstall envD hD wD).regValues = wD.regValues ∧
      Darwin.Install envD hD wD = (none, wD1) ∧
      (Darwin.Install envD hD wD).2.files = wD.files) ∧
    (Windows.Uninstall envW hW wW = { wW1 with trace := wW1.trace ++ [(Call.goexit, none)] } ∧
      (∀ ev ∈ (Windows.Uninstall envW hW wW).since wW, ev.1.mutates = false) ∧
      (Windows.Uninstall envW hW wW).files = wW.files ∧
      (Windows.Uninstall envW hW wW).regValues = wW.regValues ∧
      Windows.Install envW hW wW = (none, wW1) ∧
      (Windows.Install envW hW wW).2.files = wW.files) := by
  constructor
  · have hfr := Darwin.getTargetNames_frame envD hD wD
    have hcalls := Darwin.getTargetNames_calls envD hD wD
    rw [hlocD] at hfr hcalls
    simp only at hfr hcalls
    have hU : Darwin.Uninstall envD hD wD =
        { wD1 with trace := wD1.trace ++ [(Call.goexit, none)] } := by
      simp only [Darwin.Uninstall, hlocD, Darwin.uninstallLoop, runtimeGoexit, World.record]
    have hI : Darwin.Install envD hD wD = (none, wD1) := by
      simp only [Darwin.Install, hlocD, Darwin.installLoop]
    refine ⟨hU, ?_, ?_, ?_, hI, ?_⟩
    · intro ev hev
      have hc : ev.1 ∈ (wD1.calls ++ [Call.goexit]).drop wD.calls.length := by
        rw [hU] at hev
        simp only [World.since] at hev
        have := List.mem_map_of_mem Prod.fst hev
        simpa [World.calls, List.map_drop] using this
      rw [hcalls] at hc
      simp only [List.append_assoc, List.drop_left] at hc
      have hall : ∀ c ∈ (if envD.uid = 0 then [Call.getuid]
          else [Call.getuid, Call.userHomeDir, Call.glob (Darwin.globPattern envD)]) ++
          [Call.goexit], c.mutates = false := by
        split <;> simp [Call.mutates]
      exact hall _ hc
    · rw [hU]; exact hfr.2.1
    · rw [hU]; exact hfr.2.2.1
    · rw [hI]; exact hfr.2.1
  · rw [Windows.getTargetNames_eq] at hlocW
    have hw1 : wW1 = Windows.located wW none := by
      cases hs : envW.subKeyNames (Windows.openedKey wW) with
      | error err => simp [hs] at hlocW
      | ok names => simp [hs] at hlocW; exact hlocW.2.symm
    have hloc' : Windows.getTargetNames envW hW wW = (Except.ok [], wW1) := by
      rw [Windows.getTargetNames_eq]; exact hlocW
    have hU : Windows.Uninstall envW hW wW =
        { wW1 with trace := wW1.trace ++ [(Call.goexit, none)] } := by
      simp only [Windows.Uninstall, hloc', Windows.uninstallLoop, runDeferred, runtimeGoexit,
        World.record]
    have hI : Windows.Install envW hW wW = (none, wW1) := by
      simp only [Windows.Install, hloc', Windows.installLoop, runDeferred]
    refine ⟨hU, ?_, ?_, ?_, hI, ?_⟩
    · intro ev hev
      rw [hU, hw1] at hev
      simp only [World.since, Windows.located, List.append_assoc, List.drop_left] at hev
      have hall : ∀ x ∈ [(Call.openKey "SOFTWARE\\Google" 9, wW.outcome 0),
          (Call.readSubKeyNames (Windows.openedKey wW) 0, none),
          (Call.closeKey (Windows.openedKey wW), none), (Call.goexit, (none : Option GoError))],
          x.1.mutates = false := by
        simp [Call.mutates]
      exact hall _ hev
    · rw [hU, hw1]; rfl
    · rw [hU, hw1]; rfl
    · rw [hI, hw1]; rfl

/-- Witness of C10: root on the directory platform and a registry without a
`Chrome` subkey, with the manifest, the executable and its checksum file in
place: `Uninstall` leaves all of them where they are. -/
theorem C10_no_targets_no_removal_witness :
    (Darwin.Uninstall envNoTargets hostDemo worldInstalled).calls = [Call.getuid, Call.goexit] ∧
    (Darwin.Uninstall envNoTargets hostDemo worldInstalled).files "/opt/demo/bin" = some [1] ∧
    (Windows.Uninstall envNoTargets hostWin worldInstalled).files "C:\\demo\\demo.exe" = some [1] ∧
    Darwin.Install envNoTargets hostDemo worldInstalled =
      (none, (Darwin.getTargetNames envNoTargets hostDemo worldInstalled).2) ∧
    Windows.Install envNoTargets hostWin worldInstalled =
      (none, (Windows.getTargetNames envNoTargets hostWin worldInstalled).2) := by
  have h := C10_no_targets_no_removal
    envNoTargets hostDemo worldInstalled
    (Darwin.getTargetNames envNoTargets hostDemo worldInstalled).2
    envNoTargets hostWin worldInstalled
    (Windows.getTargetNames envNoTargets hostWin worldInstalled).2
    (by rfl) (by rfl)
  refine ⟨?_, ?_, ?_, h.1.2.2.2.2.1, h.2.2.2.2.2.1⟩
  · rw [h.1.1]; rfl
  · rw [h.1.2.2.1]; rfl
  · rw [h.2.2.2.1]; rfl

end NativeMessagingHost
